import Mathlib

/-!
Formal model of `io_scene_godot/converters/animation.py`.

The module's own logic is translated directly from the source. Blender
(`bpy`, `bpy_extras.anim_utils`, `mathutils`) and the sibling module
`structures.py` are external collaborators of this module; where an external
operation decides a claim it is modelled from its documented behaviour and
carries a doc comment saying so.

Python integers are unbounded, so frame numbers are `Int`; float-valued
quantities that the code compares or divides are modelled as `Rat`.
Python strings that undergo slicing/concatenation are modelled as `List Char`
(`PyStr`); strings only ever compared for equality stay `String`.
-/

/-- Python strings manipulated structurally (slicing, concatenation). -/
abbrev PyStr := List Char

/-- Python `s[:-k]` for `k > 0`: drop the last `k` characters. -/
def pyCutRight (s : PyStr) (k : Nat) : PyStr :=
  s.take (s.length - k)

/-- Python `int()` on a float/Rat: truncation toward zero. A rational is
`num / den` with `den` positive, so truncation is `num / den` for `num ≥ 0`
and `-((-num) / den)` otherwise; both divisions act on nonnegative
operands, where every integer-division convention agrees. -/
def pyInt (q : Rat) : Int :=
  if 0 ≤ q.num then q.num / (q.den : Int) else -((-q.num) / (q.den : Int))

/-- `NEAREST_INTERPOLATION = 0` (animation.py line 15). -/
def NEAREST_INTERPOLATION : Nat := 0

/-- `LINEAR_INTERPOLATION = 1` (animation.py line 16). -/
def LINEAR_INTERPOLATION : Nat := 1

/-- `BAKING_SUFFIX = '--being-baking'` (animation.py line 34). -/
def BAKING_SUFFIX : PyStr := "--being-baking".toList

/-! ## Track key serialization (value_frames_to_keys / transform_frames_to_keys) -/

/-- The `keys_map` built by `value_frames_to_keys`: parallel arrays of key
times, transitions and values (the constant `update = 0` entry is omitted as
it carries no information). -/
structure ValueKeys (V : Type) where
  times : List Rat
  transitions : List Rat
  values : List V
deriving DecidableEq

/-- Loop of `value_frames_to_keys` (lines 183-191): iterate over the
(frame, value) pairs; `prev` holds `value_list[index - 1]` (`none` at index 0).
A pair is skipped iff the interpolation is linear, the index is positive and
the value equals the previous input value. -/
def valueKeysLoop {V : Type} [DecidableEq V] (fps : Rat) (interp : Nat) :
    Option V → List (Int × V) → ValueKeys V
  | _, [] => ⟨[], [], []⟩
  | prev, (frame, v) :: rest =>
    if interp = LINEAR_INTERPOLATION ∧ prev = some v then
      valueKeysLoop fps interp (some v) rest
    else
      let k := valueKeysLoop fps interp (some v) rest
      ⟨(frame : Rat) / fps :: k.times, 1 :: k.transitions, v :: k.values⟩

/-- `value_frames_to_keys` (lines 178-199). The Python code walks
`enumerate(frame_list)` and indexes `value_list[index]`; the two lists are
always built in lockstep by `Track`, which the zip expresses. -/
def value_frames_to_keys {V : Type} [DecidableEq V] (fps : Rat) (interp : Nat)
    (frame_list : List Int) (value_list : List V) : ValueKeys V :=
  valueKeysLoop fps interp none (frame_list.zip value_list)

/-- Loop of `transform_frames_to_keys` (lines 206-233): every emitted key
contributes (time, transition 1.0, matrix). Flattening the matrix into the
ten serialized floats goes through `fix_matrix` and the mathutils
decompositions, which live outside this module (`structures.py`), so an
emitted key is modelled at the granularity of its (time, transition, matrix)
triple. The skip condition is identical to the value-track one. -/
def transformKeysLoop {M : Type} [DecidableEq M] (fps : Rat) (interp : Nat) :
    Option M → List (Int × M) → List (Rat × Rat × M)
  | _, [] => []
  | prev, (frame, mat) :: rest =>
    if interp = LINEAR_INTERPOLATION ∧ prev = some mat then
      transformKeysLoop fps interp (some mat) rest
    else
      ((frame : Rat) / fps, 1, mat) :: transformKeysLoop fps interp (some mat) rest

/-- `transform_frames_to_keys` (lines 202-235). -/
def transform_frames_to_keys {M : Type} [DecidableEq M] (fps : Rat) (interp : Nat)
    (frame_list : List Int) (value_list : List M) : List (Rat × Rat × M) :=
  transformKeysLoop fps interp none (frame_list.zip value_list)

/-- Modelled from the spec: "a keyframe is emitted iff it is the first in the
list or its value differs from the immediately preceding input value" —
`prev` is the immediately preceding input value. Used as the independent
reference the serializers are compared against. -/
def specEmittedAux {V : Type} [DecidableEq V] (prev : V) :
    List (Int × V) → List (Int × V)
  | [] => []
  | (f, v) :: rest =>
    if v = prev then specEmittedAux v rest
    else (f, v) :: specEmittedAux v rest

/-- Modelled from the spec: the sublist of (frame, value) pairs the claim says
a linear-interpolation track must emit. -/
def specEmitted {V : Type} [DecidableEq V] : List (Int × V) → List (Int × V)
  | [] => []
  | p :: rest => p :: specEmittedAux p.2 rest

/-! ## Track and AnimationResource -/

/-- `Track` (lines 37-73): track type, path, interpolation, and the parallel
frame/value lists. Values are heterogeneous in Python; the model is
polymorphic in the value type. -/
structure Track (V : Type) where
  type : String
  path : String
  interp : Nat
  frames : List Int
  values : List V
deriving DecidableEq

/-- `Track.frame_end` (lines 63-67): last frame number, `0` for an empty list. -/
def Track.frame_end {V : Type} (t : Track V) : Int :=
  match t.frames.getLast? with
  | none => 0
  | some f => f

/-- `Track.frame_begin` (lines 69-73): first frame number, `0` for an empty list. -/
def Track.frame_begin {V : Type} (t : Track V) : Int :=
  match t.frames.head? with
  | none => 0
  | some f => f

/-- One `tracks/N/...` entry group written by `add_track`. -/
inductive TrackKeys (V : Type) where
  | valueKeys (k : ValueKeys V)
  | transformKeys (k : List (Rat × Rat × V))
  | noKeys
deriving DecidableEq

/-- The serialized fields of one track inside an `AnimationResource`. -/
structure ResourceEntry (V : Type) where
  index : Nat
  type : String
  path : String
  interp : Nat
  keys : TrackKeys V
deriving DecidableEq

/-- `AnimationResource` (lines 76-103): `step` and `length` are the mapped
`self['step']` / `self['length']` entries, `track_count` counts tracks, and
`entries` the serialized `tracks/N/...` groups. -/
structure AnimationResource (V : Type) where
  name : String
  step : Rat
  length : Rat
  track_count : Nat
  entries : List (ResourceEntry V)
deriving DecidableEq

/-- `AnimationResource.__init__` (lines 78-82). -/
def AnimationResource.init {V : Type} (name : String) : AnimationResource V :=
  ⟨name, 1/10, 0, 0, []⟩

/-- The `track.frame_end() / bpy.context.scene.render.fps` quantity of
`add_track` (line 86); the scene frame rate is the `fps` parameter. -/
def trackLengthOf {V : Type} (fps : Rat) (t : Track V) : Rat :=
  (t.frame_end : Rat) / fps

/-- `AnimationResource.add_track` (lines 84-103): bump `length` when the new
track ends later, assign the next sequential index, and serialize the keys
according to the track type. -/
def AnimationResource.add_track {V : Type} [DecidableEq V] (fps : Rat)
    (r : AnimationResource V) (t : Track V) : AnimationResource V :=
  let track_length := trackLengthOf fps t
  let newLength := if track_length > r.length then track_length else r.length
  let keys : TrackKeys V :=
    if t.type = "transform" then
      TrackKeys.transformKeys (transform_frames_to_keys fps t.interp t.frames t.values)
    else if t.type = "value" then
      TrackKeys.valueKeys (value_frames_to_keys fps t.interp t.frames t.values)
    else TrackKeys.noKeys
  { r with
    length := newLength
    track_count := r.track_count + 1
    entries := r.entries ++ [⟨r.track_count, t.type, t.path, t.interp, keys⟩] }

/-! ## TransformFrame (export_transform_action, lines 421-467) -/

abbrev Mat3 := Matrix (Fin 3) (Fin 3) Rat
abbrev Mat4 := Matrix (Fin 4) (Fin 4) Rat

/-- Modelled from Blender's mathutils: `Matrix.to_4x4()` embeds a 3x3 matrix
in the upper-left corner of a 4x4 identity. -/
def matTo4x4 (m : Mat3) : Mat4 :=
  !![m 0 0, m 0 1, m 0 2, 0;
     m 1 0, m 1 1, m 1 2, 0;
     m 2 0, m 2 1, m 2 2, 0;
     0, 0, 0, 1]

/-- Modelled from Blender's mathutils: `Matrix.Translation(v)` is the identity
with `v` in the last column. -/
def matTranslation (v : Rat × Rat × Rat) : Mat4 :=
  !![1, 0, 0, v.1;
     0, 1, 0, v.2.1;
     0, 0, 1, v.2.2;
     0, 0, 0, 1]

/-- The mathutils conversions `export_transform_action` consumes, kept
abstract: `M` is a mathutils 4x4 matrix, `Q` a quaternion, `E` an Euler
rotation. Their numeric content never decides a claim. -/
structure MathCtx (M Q E : Type) where
  toTranslation : M → Rat × Rat × Rat
  toScale : M → Rat × Rat × Rat
  toQuaternion : M → Q
  toEuler : Option String → M → E
  quatToMatrix : Q → Mat3
  eulerToMatrix : E → Mat3
  quatSet : Q → Nat → Rat → Q
  eulerSet : E → Nat → Rat → E

/-- `TransformFrame` (lines 421-443): per-frame accumulator of location,
scale and both rotation representations. -/
structure TransformFrame (Q E : Type) where
  location : Rat × Rat × Rat
  scale : Rat × Rat × Rat
  rotation_mode : String
  rotation_quaternion : Q
  rotation_euler : E
deriving DecidableEq

/-- `TransformFrame.ATTRIBUTES` (lines 426-427). -/
def TransformFrameATTRIBUTES : List PyStr :=
  ["location".toList, "scale".toList,
   "rotation_quaternion".toList, "rotation_euler".toList]

/-- `TransformFrame.__init__` (lines 429-442): seed every component from the
rest-pose default transform; the Euler conversion receives the rotation mode
unless the mode is `'QUATERNION'`. -/
def TransformFrame.mkFrom {M Q E : Type} (ctx : MathCtx M Q E)
    (default_transform : M) (rotation_mode : String) : TransformFrame Q E :=
  { location := ctx.toTranslation default_transform
    scale := ctx.toScale default_transform
    rotation_mode := rotation_mode
    rotation_quaternion := ctx.toQuaternion default_transform
    rotation_euler :=
      if rotation_mode = "QUATERNION" then ctx.toEuler none default_transform
      else ctx.toEuler (some rotation_mode) default_transform }

/-- Component write `v[i] = x` on a mathutils 3-vector. mathutils raises
`IndexError` for `i > 2`; fcurves of the transform attributes only carry
`array_index` 0-2, so the out-of-range case never fires and is modelled as a
no-op. -/
def tripleSet (v : Rat × Rat × Rat) (i : Nat) (x : Rat) : Rat × Rat × Rat :=
  match i with
  | 0 => (x, v.2.1, v.2.2)
  | 1 => (v.1, x, v.2.2)
  | 2 => (v.1, v.2.1, x)
  | _ => v

/-- `TransformFrame.update` (lines 444-453): write one fcurve sample into the
matching component array. -/
def TransformFrame.update {M Q E : Type} (ctx : MathCtx M Q E)
    (f : TransformFrame Q E) (attr : PyStr) (array_index : Nat)
    (value : Rat) : TransformFrame Q E :=
  if attr = "location".toList then
    { f with location := tripleSet f.location array_index value }
  else if attr = "scale".toList then
    { f with scale := tripleSet f.scale array_index value }
  else if attr = "rotation_quaternion".toList then
    { f with rotation_quaternion := ctx.quatSet f.rotation_quaternion array_index value }
  else if attr = "rotation_euler".toList then
    { f with rotation_euler := ctx.eulerSet f.rotation_euler array_index value }
  else f

/-- `TransformFrame.to_matrix` (lines 455-467): rotation matrix from the
quaternion when the mode is `'QUATERNION'`, else from the Euler rotation;
scale matrix built as the explicit 3x3 diagonal then widened; result is
`loc_mat * rot_mat * sca_mat`. -/
def TransformFrame.to_matrix {M Q E : Type} (ctx : MathCtx M Q E)
    (f : TransformFrame Q E) : Mat4 :=
  let rot_mat : Mat4 :=
    if f.rotation_mode = "QUATERNION" then matTo4x4 (ctx.quatToMatrix f.rotation_quaternion)
    else matTo4x4 (ctx.eulerToMatrix f.rotation_euler)
  let loc_mat : Mat4 := matTranslation f.location
  let sca_mat : Mat4 :=
    matTo4x4 !![f.scale.1, 0, 0; 0, f.scale.2.1, 0; 0, 0, f.scale.2.2]
  loc_mat * rot_mat * sca_mat

/-! ## fcurve data paths (lines 280-296) -/

/-- If `pre` is a prefix of `l`, the remainder after it. -/
def dropPre? {α : Type} [DecidableEq α] : List α → List α → Option (List α)
  | [], l => some l
  | _ :: _, [] => none
  | p :: ps, c :: cs => if p = c then dropPre? ps cs else none

/-- Split at the first occurrence of `sep`: `some (before, after)`. -/
def splitFirst {α : Type} [DecidableEq α] (sep : List α) :
    List α → Option (List α × List α)
  | [] => none
  | c :: rest =>
    match dropPre? sep (c :: rest) with
    | some tail => some ([], tail)
    | none =>
      match splitFirst sep rest with
      | some (a, b) => some (c :: a, b)
      | none => none

/-- `split_fcurve_data_path` (lines 289-296): Python `rsplit('.', 1)` — split
at the last dot; a path without a dot yields an empty object path. -/
def split_fcurve_data_path (data_path : PyStr) : PyStr × PyStr :=
  match splitFirst ['.'] data_path.reverse with
  | some (revAttr, revPath) => (revPath.reverse, revAttr.reverse)
  | none => ([], data_path)

/-- `blender_path_to_bone_name` (lines 280-286):
`re.search(r'pose.bones\["([^"]+)"\]', path).group(1)` for the well-formed
`pose.bones["<name>"]` paths Blender produces — the name is the non-empty
quote-free text between `pose.bones["` and `"]`; `none` models a failed
search (on which Python raises `AttributeError` at `.group`). -/
def blender_path_to_bone_name (p : PyStr) : Option PyStr :=
  match splitFirst ("pose.bones[\"".toList) p with
  | none => none
  | some (_, rest) =>
    match splitFirst ['\"'] rest with
    | some (name, after) =>
      match after with
      | ']' :: _ => if name = [] then none else some name
      | _ => none
    | none => none

/-! ## init_transform_frame_values and the fcurve loop (lines 469-539) -/

/-- The part of the target Godot node `export_transform_action` consults:
its type string and, for a Skeleton, the list of exported bone names. -/
structure GodotNodeInfo where
  typ : String
  bones : List PyStr
deriving DecidableEq

/-- Modelled from the spec: `Skeleton.find_bone_id` (structures.py, outside
this module) returns the exported bone's id and `-1` when the bone is absent
from the exported skeleton. -/
def find_bone_id (g : GodotNodeInfo) (bone_name : PyStr) : Int :=
  match g.bones.findIdx? (fun b => b = bone_name) with
  | some i => (i : Int)
  | none => -1

/-- Blender `collection.find(name)`: index of the member, `-1` if absent. -/
def bpyCollectionFind (names : List PyStr) (name : PyStr) : Int :=
  match names.findIdx? (fun b => b = name) with
  | some i => (i : Int)
  | none => -1

/-- Python sequence indexing with negative-index wrap-around;
`none` is an `IndexError`. -/
def pySeqGet {α : Type} (l : List α) (i : Int) : Option α :=
  if 0 ≤ i then l.get? i.toNat
  else if (-i).toNat ≤ l.length then l.get? (l.length - (-i).toNat) else none

/-- One pose bone of the Blender object: name, rest matrix, rotation mode. -/
structure PoseBone (M : Type) where
  name : PyStr
  matrix_basis : M
  rotation_mode : String

/-- The parts of the Blender object the transform exporter consults. -/
structure BObjectInfo (M : Type) where
  name : PyStr
  matrix_basis : M
  rotation_mode : String
  pose_bones : List (PoseBone M)

/-- `init_transform_frame_values` (lines 469-506). A `pose...` path resolves
its bone name first; a bone fcurve under a non-Skeleton node is skipped WITH a
logged warning (returned in the second component), a bone absent from the
exported skeleton is skipped silently; otherwise the frame list is
`last_frame - first_frame` copies of the rest-pose default frame.
`Except.error` models a raised Python exception. -/
def init_transform_frame_values {M Q E : Type} (ctx : MathCtx M Q E)
    (object_path : PyStr) (blender_object : BObjectInfo M)
    (godot_node : GodotNodeInfo) (first_frame last_frame : Int) :
    Except String (Option (List (TransformFrame Q E)) × List PyStr) :=
  if object_path.take 4 = "pose".toList then
    match blender_path_to_bone_name object_path with
    | none => Except.error "AttributeError"
    | some bone_name =>
      if godot_node.typ ≠ "Skeleton" then
        Except.ok (none,
          [("Skip a bone fcurve in a non-armature object '".toList
            ++ blender_object.name ++ "'".toList)])
      else if find_bone_id godot_node bone_name = -1 then
        Except.ok (none, [])
      else
        match pySeqGet blender_object.pose_bones
            (bpyCollectionFind (blender_object.pose_bones.map PoseBone.name) bone_name) with
        | none => Except.error "IndexError"
        | some pose_bone =>
          Except.ok (some (List.replicate (last_frame - first_frame).toNat
            (TransformFrame.mkFrom ctx pose_bone.matrix_basis pose_bone.rotation_mode)), [])
  else
    Except.ok (some (List.replicate (last_frame - first_frame).toNat
      (TransformFrame.mkFrom ctx blender_object.matrix_basis blender_object.rotation_mode)), [])

/-- One fcurve as the loop reads it: its data path, component index, and the
continuous evaluation function (`fcurve.evaluate`, an external Blender call). -/
structure FCurveInfo where
  data_path : PyStr
  array_index : Nat
  evaluate : Int → Rat

/-- Second `if` of the fcurve loop (lines 532-539): when the attribute is one
of the transform attributes, write the evaluated samples of this fcurve into
the frame list stored under `object_path`. The subscript
`transform_frame_values_map[object_path]` raises `KeyError` when the key is
missing. The stored lists have length `last_frame - first_frame` by
construction, so indexed update is expressed with `mapIdx`. -/
def fcurveUpdateStep {M Q E : Type} (ctx : MathCtx M Q E) (first_frame : Int)
    (fcurve : FCurveInfo) (object_path attr : PyStr)
    (acc : List (PyStr × List (TransformFrame Q E))) :
    Except String (List (PyStr × List (TransformFrame Q E))) :=
  if attr ∈ TransformFrameATTRIBUTES then
    match acc.lookup object_path with
    | none => Except.error "KeyError"
    | some _ =>
      Except.ok (acc.map (fun pr =>
        if pr.1 = object_path then
          (pr.1, pr.2.mapIdx (fun i fr =>
            fr.update ctx attr fcurve.array_index
              (fcurve.evaluate (first_frame + i))))
        else pr))
  else Except.ok acc

/-- The fcurve aggregation loop of `export_transform_action` (lines 510-539):
group fcurves by object path, lazily initializing each group's frame list; a
failed or empty initialization `continue`s to the next fcurve. Returns the
ordered map of per-path frame lists and the accumulated warnings. Every entry
of the resulting map becomes exactly one transform track in the second loop
(lines 541-588), whose matrix fixing and path construction are external
conversions. -/
def processTransformFCurves {M Q E : Type} [DecidableEq Q] [DecidableEq E]
    (ctx : MathCtx M Q E) (blender_object : BObjectInfo M)
    (godot_node : GodotNodeInfo) (first_frame last_frame : Int) :
    List FCurveInfo → List (PyStr × List (TransformFrame Q E)) → List PyStr →
    Except String (List (PyStr × List (TransformFrame Q E)) × List PyStr)
  | [], acc, warns => Except.ok (acc, warns)
  | fcurve :: rest, acc, warns =>
    let pa := split_fcurve_data_path fcurve.data_path
    if (acc.lookup pa.1).isNone ∧ pa.2 ∈ TransformFrameATTRIBUTES then
      match init_transform_frame_values ctx pa.1 blender_object godot_node
          first_frame last_frame with
      | Except.error e => Except.error e
      | Except.ok (fv?, w2) =>
        match fv? with
        | none =>
          processTransformFCurves ctx blender_object godot_node first_frame
            last_frame rest acc (warns ++ w2)
        | some [] =>
          processTransformFCurves ctx blender_object godot_node first_frame
            last_frame rest acc (warns ++ w2)
        | some fv =>
          match fcurveUpdateStep ctx first_frame fcurve pa.1 pa.2
              (acc ++ [(pa.1, fv)]) with
          | Except.error e => Except.error e
          | Except.ok acc2 =>
            processTransformFCurves ctx blender_object godot_node first_frame
              last_frame rest acc2 (warns ++ w2)
    else
      match fcurveUpdateStep ctx first_frame fcurve pa.1 pa.2 acc with
      | Except.error e => Except.error e
      | Except.ok acc2 =>
        processTransformFCurves ctx blender_object godot_node first_frame
          last_frame rest acc2 warns

/-! ## get_animation_player (lines 238-277) -/

/-- A node of the generated Godot scene: id, type string, parent id.
The exporter creates nodes parent-first, so a node's parent always has a
smaller id than the node itself — the walk-up loops below recurse only on
smaller ids, which makes them total while agreeing with the Python
`while`-loops on every exporter-generated scene. -/
structure GNode where
  id : Nat
  typ : String
  parent : Option Nat
deriving DecidableEq

/-- The escn file's node set, with the next fresh node id. -/
structure GScene where
  nodes : List GNode
  next_id : Nat
deriving DecidableEq

def GScene.find (s : GScene) (i : Nat) : Option GNode :=
  s.nodes.find? (fun n => n.id = i)

/-- `node.children` — the nodes whose parent is `i`, in creation order
(modelled from the spec: `NodeTemplate` in structures.py links each new node
as a child of its parent). -/
def GScene.childrenOf (s : GScene) (i : Nat) : List GNode :=
  s.nodes.filter (fun n => n.parent = some i)

/-- First `AnimationPlayer` among the children of `i` (the inner
`for child in ...: if child.get_type() == 'AnimationPlayer'` scans). -/
def firstPlayerChild (s : GScene) (i : Nat) : Option GNode :=
  (s.childrenOf i).find? (fun n => n.typ = "AnimationPlayer")

/-- The `while node_ptr.parent is not None` walk of the `SCENE_ANIMATION`
branch (lines 248-251). -/
def GScene.rootOf (s : GScene) (i : Nat) : Nat :=
  match (s.find i).bind GNode.parent with
  | none => i
  | some q => if _h : q < i then s.rootOf q else i
termination_by i

/-- The upward search of the `SQUASHED_ACTIONS` branch (lines 259-267): at
each level look for an `AnimationPlayer` child, else move to the parent. -/
def squashedFind (s : GScene) (i : Nat) : Option Nat :=
  match firstPlayerChild s i with
  | some p => some p.id
  | none =>
    match (s.find i).bind GNode.parent with
    | none => none
    | some q => if _h : q < i then squashedFind s q else none
termination_by i

/-- `get_animation_player` (lines 238-277): locate an existing
`AnimationPlayer` along the mode's search path ('ACTIONS' performs no
search), creating one under the mode's base node when none is found.
Returns the player's node id and the (possibly extended) scene. -/
def get_animation_player (animation_modes : String) (s : GScene)
    (node_id : Nat) : Nat × GScene :=
  let found : Option Nat × Nat :=
    if animation_modes = "ACTIONS" then (none, node_id)
    else if animation_modes = "SCENE_ANIMATION" then
      let root := s.rootOf node_id
      ((firstPlayerChild s root).map GNode.id, root)
    else
      (squashedFind s node_id, node_id)
  match found.1 with
  | some p => (p, s)
  | none =>
    (s.next_id,
      ⟨s.nodes ++ [⟨s.next_id, "AnimationPlayer", some found.2⟩], s.next_id + 1⟩)

/-! ## The action/baking world (lines 299-414, 754-866)

State threaded through `export_animation_data`: the `bpy.data.actions`
store, the object's `animation_data`, and instrumentation logs (bake calls,
resource registrations, nla exports). `Except.error` models a raised Python
exception. -/

/-- A `bpy.types.Action` datablock: its name and declared `frame_range`
(Blender exposes the range as floats). -/
structure BAction where
  name : PyStr
  frame_range : Rat × Rat
deriving DecidableEq

/-- `blender_object.animation_data`: the active action and the actions
referenced by the nla strips, flattened in `(track, strip)` order. -/
structure AnimData where
  action : Option Nat
  nla_strip_actions : List (Option Nat)
deriving DecidableEq

/-- One call to the external `bpy_extras.anim_utils.bake_action`: its frame
window, the `action=` argument (`none` = bake into a fresh action), the
pose/object switches, the object's active action at call time, and the id of
the action actually baked into. -/
structure BakeEvent where
  frame_start : Int
  frame_end : Int
  bake_into : Option Nat
  do_pose : Bool
  do_object : Bool
  active_at_call : Option Nat
  target : Nat
deriving DecidableEq

/-- The Blender-side state `export_animation_data` mutates. -/
structure World where
  actions : List (Nat × BAction)
  next_id : Nat
  anim_data : Option AnimData
  bake_log : List BakeEvent
deriving DecidableEq

def World.findAction (w : World) (i : Nat) : Option BAction :=
  (w.actions.find? (fun p => p.1 = i)).map Prod.snd

/-- `action.name = n` (Blender datablock rename; the baking suffix makes the
renames of this module collision-free). -/
def World.renameAction (w : World) (i : Nat) (n : PyStr) : World :=
  { w with actions := w.actions.map (fun p =>
      if p.1 = i then (p.1, ⟨n, p.2.frame_range⟩) else p) }

/-- Modelled from Blender's documented behaviour:
`bpy.data.actions.remove(action)` (default `do_unlink=True`) deletes the
datablock and clears references to it, in particular an `animation_data.action`
pointing at it becomes `None`. -/
def World.removeAction (w : World) (i : Nat) : World :=
  { w with
    actions := w.actions.filter (fun p => ¬ p.1 = i)
    anim_data := w.anim_data.map (fun ad =>
      if ad.action = some i then ⟨none, ad.nla_strip_actions⟩ else ad) }

/-- `blender_object.animation_data.action`, read as an `Option` (`none` both
when `animation_data` is `None` and when the slot is empty). -/
def World.activeAction (w : World) : Option Nat :=
  match w.anim_data with
  | some ad => ad.action
  | none => none

/-- `get_action_frame_range` (lines 299-303): the action's range with the
inclusive float end turned into an exclusive integer bound. -/
def get_action_frame_range (action : BAction) : Int × Int :=
  (pyInt action.frame_range.1, pyInt action.frame_range.2 + 1)

/-- Modelled from Blender's documented behaviour:
`bpy_extras.anim_utils.bake_action(obj, frame_start, frame_end, action, ...)`
bakes into `action` — creating a fresh action (default name `'Action'`) when
it is `None` — ensures the object has `animation_data`, and leaves the baked
action assigned as the object's active action. The call is recorded in the
bake log. -/
def bake_action (frame_start frame_end : Int) (bake_into : Option Nat)
    (do_pose do_object : Bool) (w : World) : Nat × World :=
  let active_at_call := w.activeAction
  let tw1 : Nat × World :=
    match bake_into with
    | some t => (t, w)
    | none =>
      (w.next_id,
        { w with
          actions := w.actions
            ++ [(w.next_id, ⟨"Action".toList, ((frame_start : Rat), (frame_end : Rat))⟩)]
          next_id := w.next_id + 1 })
  let target := tw1.1
  let w1 := tw1.2
  let new_ad : AnimData :=
    match w1.anim_data with
    | some ad => ⟨some target, ad.nla_strip_actions⟩
    | none => ⟨some target, []⟩
  (target,
    { w1 with
      anim_data := some new_ad
      bake_log := w1.bake_log
        ++ [(⟨frame_start, frame_end, bake_into, do_pose, do_object,
              active_at_call, target⟩ : BakeEvent)] })

/-- `bake_constraint_to_action` (lines 358-414): with a base action, make it
active and take its declared frame range; without one, use the fixed default
range (1, 250). Bake in place or into a fresh action; a fresh baked action is
renamed to the base's name with the baking suffix cut off (or to
`<object>Action` when there is no base). The version check (line 377) only
swaps the active-object juggling of Blender 2.79, identical in the modelled
effects. -/
def bake_constraint_to_action (blender_object_name : PyStr)
    (base_action : Option Nat) (bake_type : String) (in_place : Bool)
    (w : World) : Except String (Option Nat × World) :=
  let setup : Except String ((Int × Int) × World) :=
    match base_action with
    | some a =>
      match w.findAction a, w.anim_data with
      | some act, some ad =>
        Except.ok (get_action_frame_range act,
          { w with anim_data := some ⟨some a, ad.nla_strip_actions⟩ })
      | none, _ => Except.error "ReferenceError"
      | some _, none => Except.error "AttributeError"
    | none => Except.ok ((1, 250), w)
  match setup with
  | Except.error e => Except.error e
  | Except.ok (frame_range, w1) =>
    let action_bake_into := if in_place then base_action else none
    let do_pose : Bool := bake_type = "POSE"
    let do_object : Bool := !do_pose
    let (baked, w2) :=
      bake_action frame_range.1 frame_range.2 action_bake_into do_pose do_object w1
    if in_place then Except.ok (base_action, w2)
    else
      match base_action with
      | some a =>
        match w2.findAction a with
        | some act =>
          Except.ok (some baked,
            w2.renameAction baked (pyCutRight act.name BAKING_SUFFIX.length))
        | none => Except.error "ReferenceError"
      | none =>
        Except.ok (some baked,
          w2.renameAction baked (blender_object_name ++ "Action".toList))

/-- `action_baker` (lines 768-786): with both constraint domains, bake
`"OBJECT"` into a fresh intermediate then `"POSE"` in place on it; with one
domain, a single non-in-place `"POSE"` bake (also for the object-only case —
the asymmetry is in the source). With neither flag Python raises `NameError`
(`ret` unbound); `export_animation_data` only calls this under `need_bake`. -/
def action_baker (blender_object_name : PyStr) (has_obj_cst has_pose_cst : Bool)
    (action_to_bake : Option Nat) (w : World) :
    Except String (Option Nat × World) :=
  if has_obj_cst && has_pose_cst then
    match bake_constraint_to_action blender_object_name action_to_bake "OBJECT" false w with
    | Except.error e => Except.error e
    | Except.ok (tmp, w1) =>
      bake_constraint_to_action blender_object_name tmp "POSE" true w1
  else if has_pose_cst then
    bake_constraint_to_action blender_object_name action_to_bake "POSE" false w
  else if has_obj_cst then
    bake_constraint_to_action blender_object_name action_to_bake "POSE" false w
  else Except.error "NameError"

/-- Per-call exporter state: the Blender world, the target player's
`default_animation`, and the registration/instrumentation logs
(`resource_log` records each `create_animation_resource` call as
(resource name, id of the action passed); `nla_log` each `export_nla_action`
call; `exported_actions` the dedup set). -/
structure ExportState where
  world : World
  default_animation : Option PyStr
  resource_log : List (PyStr × Nat)
  nla_log : List Nat
  exported_actions : List Nat
deriving DecidableEq

/-- `AnimationPlayer.create_animation_resource` (lines 161-175): the resource
is named after the action and force-registered (never deduplicated by
content). Returns the resource name. -/
def create_animation_resource (st : ExportState) (action : Option Nat) :
    Except String (PyStr × ExportState) :=
  match action with
  | none => Except.error "AttributeError"
  | some a =>
    match st.world.findAction a with
    | none => Except.error "ReferenceError"
    | some act =>
      Except.ok (act.name,
        { st with resource_log := st.resource_log ++ [(act.name, a)] })

/-- `AnimationPlayer.add_default_animation_resource` (lines 154-159). -/
def add_default_animation_resource (st : ExportState) (action : Option Nat) :
    Except String ExportState :=
  match create_animation_resource st action with
  | Except.error e => Except.error e
  | Except.ok (nm, st1) => Except.ok { st1 with default_animation := some nm }

/-- `export_active_action` (lines 801-828): under `need_bake`, suffix-rename
the active action (when present), record it as exported, and bake; create the
player's default animation resource when it has none; export (the per-domain
exporter functions do not touch this state); then delete the baked action and
strip the suffix back off. -/
def export_active_action (obj_name : PyStr) (has_obj has_pose need_bake : Bool)
    (active_action : Option Nat) (st : ExportState) :
    Except String ExportState :=
  let step1 : Except String (Option Nat × ExportState) :=
    if need_bake then
      let renamed : Except String ExportState :=
        match active_action with
        | some a =>
          match st.world.findAction a with
          | some act =>
            Except.ok { st with
              world := st.world.renameAction a (act.name ++ BAKING_SUFFIX)
              exported_actions := st.exported_actions ++ [a] }
          | none => Except.error "ReferenceError"
        | none => Except.ok st
      match renamed with
      | Except.error e => Except.error e
      | Except.ok st1 =>
        match action_baker obj_name has_obj has_pose active_action st1.world with
        | Except.error e => Except.error e
        | Except.ok (ret, w) => Except.ok (ret, { st1 with world := w })
    else Except.ok (active_action, st)
  match step1 with
  | Except.error e => Except.error e
  | Except.ok (action_active_to_export, st2) =>
    let made_default : Except String ExportState :=
      if st2.default_animation = none then
        add_default_animation_resource st2 action_active_to_export
      else Except.ok st2
    match made_default with
    | Except.error e => Except.error e
    | Except.ok st3 =>
      if need_bake then
        match action_active_to_export with
        | none => Except.error "TypeError"
        | some baked =>
          let w4 := st3.world.removeAction baked
          match active_action with
          | some a =>
            match w4.findAction a with
            | some act =>
              Except.ok { st3 with
                world := w4.renameAction a (pyCutRight act.name BAKING_SUFFIX.length) }
            | none => Except.error "ReferenceError"
          | none => Except.ok { st3 with world := w4 }
      else Except.ok st3

/-- `export_nla_action` (lines 834-854): record the action as exported, bake
it when needed (behind a suffix-rename), register its own animation resource,
export, then delete the baked action and strip the suffix back off. -/
def export_nla_action (obj_name : PyStr) (has_obj has_pose need_bake : Bool)
    (nla_action : Nat) (st : ExportState) : Except String ExportState :=
  let st0 := { st with
    exported_actions := st.exported_actions ++ [nla_action]
    nla_log := st.nla_log ++ [nla_action] }
  if need_bake then
    match st0.world.findAction nla_action with
    | none => Except.error "ReferenceError"
    | some act =>
      let st1 := { st0 with
        world := st0.world.renameAction nla_action (act.name ++ BAKING_SUFFIX) }
      match action_baker obj_name has_obj has_pose (some nla_action) st1.world with
      | Except.error e => Except.error e
      | Except.ok (to_export, w2) =>
        let st2 := { st1 with world := w2 }
        match create_animation_resource st2 to_export with
        | Except.error e => Except.error e
        | Except.ok (_, st3) =>
          match to_export with
          | none => Except.error "TypeError"
          | some baked =>
            let w4 := st3.world.removeAction baked
            match w4.findAction nla_action with
            | none => Except.error "ReferenceError"
            | some act2 =>
              Except.ok { st3 with
                world := w4.renameAction nla_action
                  (pyCutRight act2.name BAKING_SUFFIX.length) }
  else
    match create_animation_resource st0 (some nla_action) with
    | Except.error e => Except.error e
    | Except.ok (_, st1) => Except.ok st1

/-- The strip loop of `export_animation_data` (lines 858-863): export each
strip's action unless it is `None` or already exported. -/
def export_nla_loop (obj_name : PyStr) (has_obj has_pose need_bake : Bool) :
    List (Option Nat) → ExportState → Except String ExportState
  | [], st => Except.ok st
  | sa :: rest, st =>
    match sa with
    | some a =>
      if a ∈ st.exported_actions then
        export_nla_loop obj_name has_obj has_pose need_bake rest st
      else
        match export_nla_action obj_name has_obj has_pose need_bake a st with
        | Except.error e => Except.error e
        | Except.ok st1 =>
          export_nla_loop obj_name has_obj has_pose need_bake rest st1
    | none => export_nla_loop obj_name has_obj has_pose need_bake rest st

/-- `export_animation_data` (lines 754-866), for one object: skip when
animation export is off or there is nothing to export; back up the active
action; export it (or a bake-only pass); export the nla strip actions with
identity dedup; finally write the backed-up active action back if it was not
`None`. `has_obj_cst`/`has_pose_cst` are the values of
`has_object_constraint`/`has_pose_constraint` (lines 341-355, plain reads of
the object's constraint collections). The player returned by
`get_animation_player` is represented by the `default_animation` field of the
state (a fresh player has `none`). -/
def export_animation_data (use_export_animation : Bool) (obj_name : PyStr)
    (has_obj_cst has_pose_cst : Bool) (action_type : String)
    (st : ExportState) : Except String ExportState :=
  if ¬ use_export_animation then Except.ok st
  else
    let need_bake : Bool := (action_type = "transform") && (has_obj_cst || has_pose_cst)
    if st.world.anim_data = none ∧ ¬ need_bake then Except.ok st
    else
      let st := { st with exported_actions := [] }
      let active_action := st.world.activeAction
      let step1 : Except String ExportState :=
        if active_action.isSome || (st.world.anim_data.isNone && need_bake) then
          export_active_action obj_name has_obj_cst has_pose_cst need_bake
            active_action st
        else Except.ok st
      match step1 with
      | Except.error e => Except.error e
      | Except.ok st1 =>
        match st1.world.anim_data with
        | none => Except.error "AttributeError"
        | some ad =>
          match export_nla_loop obj_name has_obj_cst has_pose_cst need_bake
              ad.nla_strip_actions st1 with
          | Except.error e => Except.error e
          | Except.ok st2 =>
            match active_action with
            | some a =>
              match st2.world.anim_data with
              | some ad2 =>
                Except.ok { st2 with
                  world := { st2.world with
                    anim_data := some ⟨some a, ad2.nla_strip_actions⟩ } }
              | none => Except.error "AttributeError"
            | none => Except.ok st2

/-! ## Concrete fixtures used by counterexamples and witnesses -/

/-- A value track whose single keyframe sits at the (legal) negative frame
-24; at 24 fps its last-frame-time is -1. -/
def c3BadTrack : Track Int := ⟨"value", "path", LINEAR_INTERPOLATION, [-24], [0]⟩

/-- A trivial mathutils context over `Unit` carriers. -/
def unitCtx : MathCtx Unit Unit Unit :=
  ⟨fun _ => (0, 0, 0), fun _ => (1, 1, 1), fun _ => (), fun _ _ => (),
   fun _ => 1, fun _ => 1, fun q _ _ => q, fun e _ _ => e⟩

/-- An armature object with a single pose bone `B`. -/
def c7ArmObj : BObjectInfo Unit :=
  ⟨"Arm".toList, (), "XYZ", [⟨"B".toList, (), "XYZ"⟩]⟩

/-- An exported Skeleton node that kept only bone `A` (bone `B` absent). -/
def c7Skeleton : GodotNodeInfo := ⟨"Skeleton", ["A".toList]⟩

/-- A non-skeleton target node. -/
def c7Spatial : GodotNodeInfo := ⟨"Spatial", []⟩

/-- The object path of a fcurve animating bone `B`. -/
def c7BonePath : PyStr := "pose.bones[\"B\"]".toList

/-- A location fcurve on bone `B` (constant evaluation). -/
def c7BoneFCurve : FCurveInfo := ⟨"pose.bones[\"B\"].location".toList, 0, fun _ => 7⟩

/-- A one-node scene (the scene root, id 0). -/
def c6Scene0 : GScene := ⟨[⟨0, "Spatial", none⟩], 1⟩

/-- A world with one action `Walk` (id 0, frames 1-10) that is the object's
active action and is also referenced by two nla strips. -/
def c2World0 : World :=
  ⟨[(0, ⟨"Walk".toList, (1, 10)⟩)], 1, some ⟨some 0, [some 0, some 0]⟩, []⟩

def c2State0 : ExportState := ⟨c2World0, none, [], [], []⟩

/-- A world where the active-action slot is empty but one nla strip
references the `Walk` action — the delicate restore case of C2. -/
def c2World1 : World :=
  ⟨[(0, ⟨"Walk".toList, (1, 10)⟩)], 1, some ⟨none, [some 0]⟩, []⟩

def c2State1 : ExportState := ⟨c2World1, none, [], [], []⟩

/-! ## Theorems -/

/-! ### C1: interpolation-aware keyframe emission -/

theorem valueKeysLoop_linear_spec {V : Type} [DecidableEq V] (fps : Rat)
    (l : List (Int × V)) : ∀ p : V,
    valueKeysLoop fps LINEAR_INTERPOLATION (some p) l =
      ⟨(specEmittedAux p l).map (fun q => (q.1 : Rat) / fps),
       (specEmittedAux p l).map (fun _ => (1 : Rat)),
       (specEmittedAux p l).map Prod.snd⟩ := by
  induction l with
  | nil => intro p; rfl
  | cons hd rest ih =>
    obtain ⟨f, v⟩ := hd
    intro p
    by_cases h : v = p
    · subst h
      simp [valueKeysLoop, specEmittedAux, ih v]
    · simp [valueKeysLoop, specEmittedAux, ih v, h, Ne.symm h]

theorem valueKeysLoop_nearest {V : Type} [DecidableEq V] (fps : Rat)
    (l : List (Int × V)) : ∀ prev : Option V,
    valueKeysLoop fps NEAREST_INTERPOLATION prev l =
      ⟨l.map (fun q => (q.1 : Rat) / fps),
       l.map (fun _ => (1 : Rat)),
       l.map Prod.snd⟩ := by
  induction l with
  | nil => intro prev; rfl
  | cons hd rest ih =>
    obtain ⟨f, v⟩ := hd
    intro prev
    have hc : ¬ (NEAREST_INTERPOLATION = LINEAR_INTERPOLATION ∧ prev = some v) := by
      rintro ⟨h01, -⟩
      exact absurd h01 (by decide)
    rw [valueKeysLoop, if_neg hc, ih (some v)]
    rfl

theorem transformKeysLoop_linear_spec {M : Type} [DecidableEq M] (fps : Rat)
    (l : List (Int × M)) : ∀ p : M,
    transformKeysLoop fps LINEAR_INTERPOLATION (some p) l =
      (specEmittedAux p l).map (fun q => ((q.1 : Rat) / fps, (1 : Rat), q.2)) := by
  induction l with
  | nil => intro p; rfl
  | cons hd rest ih =>
    obtain ⟨f, v⟩ := hd
    intro p
    by_cases h : v = p
    · subst h
      simp [transformKeysLoop, specEmittedAux, ih v]
    · simp [transformKeysLoop, specEmittedAux, ih v, h, Ne.symm h]

theorem transformKeysLoop_nearest {M : Type} [DecidableEq M] (fps : Rat)
    (l : List (Int × M)) : ∀ prev : Option M,
    transformKeysLoop fps NEAREST_INTERPOLATION prev l =
      l.map (fun q => ((q.1 : Rat) / fps, (1 : Rat), q.2)) := by
  induction l with
  | nil => intro prev; rfl
  | cons hd rest ih =>
    obtain ⟨f, v⟩ := hd
    intro prev
    have hc : ¬ (NEAREST_INTERPOLATION = LINEAR_INTERPOLATION ∧ prev = some v) := by
      rintro ⟨h01, -⟩
      exact absurd h01 (by decide)
    rw [transformKeysLoop, if_neg hc, ih (some v)]
    rfl

theorem specEmittedAux_chain {V : Type} [DecidableEq V]
    (l : List (Int × V)) : ∀ x : Int × V,
    List.Chain' (fun a b : Int × V => a.2 ≠ b.2) (x :: specEmittedAux x.2 l) := by
  induction l with
  | nil => intro x; simp [specEmittedAux]
  | cons hd rest ih =>
    obtain ⟨f, v⟩ := hd
    intro x
    by_cases h : v = x.2
    · simpa [specEmittedAux, h] using ih x
    · have hx := ih (f, v)
      simp only [specEmittedAux, if_neg h]
      exact List.Chain'.cons (fun hq => h hq.symm) hx

theorem specEmitted_chain {V : Type} [DecidableEq V] (l : List (Int × V)) :
    List.Chain' (fun a b : Int × V => a.2 ≠ b.2) (specEmitted l) := by
  cases l with
  | nil => simp [specEmitted]
  | cons p rest => exact specEmittedAux_chain rest p

theorem value_keys_linear_eq_spec {V : Type} [DecidableEq V] (fps : Rat)
    (frame_list : List Int) (value_list : List V) :
    value_frames_to_keys fps LINEAR_INTERPOLATION frame_list value_list =
      ⟨(specEmitted (frame_list.zip value_list)).map (fun q => (q.1 : Rat) / fps),
       (specEmitted (frame_list.zip value_list)).map (fun _ => (1 : Rat)),
       (specEmitted (frame_list.zip value_list)).map Prod.snd⟩ := by
  unfold value_frames_to_keys
  cases hz : frame_list.zip value_list with
  | nil => rfl
  | cons p rest =>
    obtain ⟨f, v⟩ := p
    simp [valueKeysLoop, specEmitted, valueKeysLoop_linear_spec fps rest v]

theorem transform_keys_linear_eq_spec {M : Type} [DecidableEq M] (fps : Rat)
    (frame_list : List Int) (value_list : List M) :
    transform_frames_to_keys fps LINEAR_INTERPOLATION frame_list value_list =
      (specEmitted (frame_list.zip value_list)).map
        (fun q => ((q.1 : Rat) / fps, (1 : Rat), q.2)) := by
  unfold transform_frames_to_keys
  cases hz : frame_list.zip value_list with
  | nil => rfl
  | cons p rest =>
    obtain ⟨f, v⟩ := p
    simp [transformKeysLoop, specEmitted, transformKeysLoop_linear_spec fps rest v]

/-- C1: for linear interpolation, both `value_frames_to_keys` and
`transform_frames_to_keys` emit exactly the keyframes that are first in the
list or differ from the immediately preceding input value (`specEmitted`),
and consequently no two adjacent emitted keyframes carry equal values; for
nearest (constant) interpolation every (frame, value) pair is emitted
verbatim, regardless of repetition. -/
theorem c1_keyframe_coalescing {V M : Type} [DecidableEq V] [DecidableEq M]
    (fps : Rat) (frame_list : List Int) (value_list : List V)
    (tf_frames : List Int) (mat_list : List M) :
    (value_frames_to_keys fps LINEAR_INTERPOLATION frame_list value_list).values
        = (specEmitted (frame_list.zip value_list)).map Prod.snd
    ∧ (value_frames_to_keys fps LINEAR_INTERPOLATION frame_list value_list).times
        = (specEmitted (frame_list.zip value_list)).map (fun q => (q.1 : Rat) / fps)
    ∧ List.Chain' (fun a b : V => a ≠ b)
        (value_frames_to_keys fps LINEAR_INTERPOLATION frame_list value_list).values
    ∧ (value_frames_to_keys fps NEAREST_INTERPOLATION frame_list value_list).values
        = (frame_list.zip value_list).map Prod.snd
    ∧ (value_frames_to_keys fps NEAREST_INTERPOLATION frame_list value_list).times
        = (frame_list.zip value_list).map (fun q => (q.1 : Rat) / fps)
    ∧ transform_frames_to_keys fps LINEAR_INTERPOLATION tf_frames mat_list
        = (specEmitted (tf_frames.zip mat_list)).map
            (fun q => ((q.1 : Rat) / fps, (1 : Rat), q.2))
    ∧ List.Chain' (fun a b : Rat × Rat × M => a.2.2 ≠ b.2.2)
        (transform_frames_to_keys fps LINEAR_INTERPOLATION tf_frames mat_list)
    ∧ transform_frames_to_keys fps NEAREST_INTERPOLATION tf_frames mat_list
        = (tf_frames.zip mat_list).map (fun q => ((q.1 : Rat) / fps, (1 : Rat), q.2)) := by
  refine ⟨?_, ?_, ?_, ?_, ?_, ?_, ?_, ?_⟩
  · rw [value_keys_linear_eq_spec]
  · rw [value_keys_linear_eq_spec]
  · rw [value_keys_linear_eq_spec]
    exact (List.chain'_map Prod.snd).mpr (specEmitted_chain _)
  · unfold value_frames_to_keys
    rw [valueKeysLoop_nearest]
  · unfold value_frames_to_keys
    rw [valueKeysLoop_nearest]
  · rw [transform_keys_linear_eq_spec]
  · rw [transform_keys_linear_eq_spec]
    have := specEmitted_chain (tf_frames.zip mat_list)
    refine (List.chain'_map _).mpr ?_
    simpa using this
  · unfold transform_frames_to_keys
    rw [transformKeysLoop_nearest]

/-! ### C3 / C10: resource length bookkeeping -/

theorem add_track_length_eq_max {V : Type} [DecidableEq V] (fps : Rat)
    (r : AnimationResource V) (t : Track V) :
    (AnimationResource.add_track fps r t).length
      = max r.length (trackLengthOf fps t) := by
  simp only [AnimationResource.add_track]
  split_ifs with h
  · exact (max_eq_right h.le).symm
  · exact (max_eq_left (not_lt.mp h)).symm

theorem add_track_count_succ {V : Type} [DecidableEq V] (fps : Rat)
    (r : AnimationResource V) (t : Track V) :
    (AnimationResource.add_track fps r t).track_count = r.track_count + 1 := rfl

theorem foldl_add_track_length {V : Type} [DecidableEq V] (fps : Rat)
    (ts : List (Track V)) : ∀ r : AnimationResource V,
    (List.foldl (AnimationResource.add_track fps) r ts).length
      = List.foldl (fun m u => max m (trackLengthOf fps u)) r.length ts := by
  induction ts with
  | nil => intro r; rfl
  | cons t rest ih =>
    intro r
    rw [List.foldl_cons, List.foldl_cons, ih, add_track_length_eq_max]

theorem le_foldl_max {V : Type} (fps : Rat) (ts : List (Track V)) :
    ∀ a : Rat, a ≤ List.foldl (fun m u => max m (trackLengthOf fps u)) a ts := by
  induction ts with
  | nil => intro a; exact le_refl a
  | cons t rest ih =>
    intro a
    exact le_trans (le_max_left a (trackLengthOf fps t)) (ih _)

/-- C3 counterexample: a track whose single keyframe sits at frame -24
(frames are plain integers; Blender permits negative keyframe frames).  At 24
fps its last-frame-time is -1, yet after adding it to a fresh resource the
resource's `length` is 0 — not the claimed "maximum over all added tracks of
(last frame / frame rate)", which here is -1. -/
theorem c3_counterexample :
    trackLengthOf 24 c3BadTrack = -1
    ∧ (AnimationResource.add_track 24
        (AnimationResource.init (V := Int) "anim") c3BadTrack).length = 0
    ∧ ¬ (AnimationResource.add_track 24
        (AnimationResource.init (V := Int) "anim") c3BadTrack).length
          = trackLengthOf 24 c3BadTrack := by
  have h1 : trackLengthOf 24 c3BadTrack = -1 := by
    norm_num [trackLengthOf, Track.frame_end, c3BadTrack]
  have h2 : (AnimationResource.add_track 24
      (AnimationResource.init (V := Int) "anim") c3BadTrack).length = 0 := by
    rw [add_track_length_eq_max, h1]
    norm_num [AnimationResource.init]
  refine ⟨h1, h2, ?_⟩
  rw [h2, h1]
  norm_num

/-- C3 (amended): after any sequence of `add_track` calls on a fresh
resource the `length` equals the maximum of the initial 0 and the
last-frame-times of all added tracks (so the claimed equality holds whenever
some track has a non-negative last-frame-time); `length` never decreases, and
adding a track whose last-frame-time is at most the current length leaves the
length unchanged. -/
theorem c3_length_running_max {V : Type} [DecidableEq V] (fps : Rat)
    (name : String) (ts : List (Track V)) (t : Track V) :
    (List.foldl (AnimationResource.add_track fps)
        (AnimationResource.init name) ts).length
      = List.foldl (fun m u => max m (trackLengthOf fps u)) 0 ts
    ∧ (∀ r : AnimationResource V,
        r.length ≤ (AnimationResource.add_track fps r t).length)
    ∧ (trackLengthOf fps t ≤
        (List.foldl (AnimationResource.add_track fps)
          (AnimationResource.init name) ts).length →
      (AnimationResource.add_track fps
        (List.foldl (AnimationResource.add_track fps)
          (AnimationResource.init name) ts) t).length
        = (List.foldl (AnimationResource.add_track fps)
            (AnimationResource.init name) ts).length) := by
  refine ⟨foldl_add_track_length fps ts _, ?_, ?_⟩
  · intro r
    rw [add_track_length_eq_max]
    exact le_max_left _ _
  · intro hle
    rw [add_track_length_eq_max]
    exact max_eq_left hle

/-- Witness for C3's amended theorem: with a 10-frame track already added, a
5-frame track has last-frame-time below the current length and leaves it
unchanged. -/
theorem c3_length_running_max_witness :
    (AnimationResource.add_track 24
      (List.foldl (AnimationResource.add_track 24)
        (AnimationResource.init (V := Int) "anim")
        [⟨"value", "p", LINEAR_INTERPOLATION, [48], [0]⟩])
      ⟨"value", "q", LINEAR_INTERPOLATION, [24], [0]⟩).length
    = (List.foldl (AnimationResource.add_track 24)
        (AnimationResource.init (V := Int) "anim")
        [⟨"value", "p", LINEAR_INTERPOLATION, [48], [0]⟩]).length :=
  (c3_length_running_max 24 "anim"
    [⟨"value", "p", LINEAR_INTERPOLATION, [48], [0]⟩]
    ⟨"value", "q", LINEAR_INTERPOLATION, [24], [0]⟩).2.2 (by
      rw [foldl_add_track_length]
      norm_num [trackLengthOf, Track.frame_end, AnimationResource.init])

/-- C10: a track with an empty frame list has `frame_end() = 0` and
`frame_begin() = 0`; adding it to a resource reachable from a fresh one
contributes last-frame-time 0, never increases the `length`, and still
consumes a track index. -/
theorem c10_empty_track_neutral {V : Type} [DecidableEq V]
    (ty pathStr : String) (interp : Nat) (vals : List V) (fps : Rat)
    (name : String) (ts : List (Track V)) :
    Track.frame_end (⟨ty, pathStr, interp, [], vals⟩ : Track V) = 0
    ∧ Track.frame_begin (⟨ty, pathStr, interp, [], vals⟩ : Track V) = 0
    ∧ (AnimationResource.add_track fps
        (List.foldl (AnimationResource.add_track fps)
          (AnimationResource.init name) ts)
        ⟨ty, pathStr, interp, [], vals⟩).length
      = (List.foldl (AnimationResource.add_track fps)
          (AnimationResource.init name) ts).length
    ∧ (AnimationResource.add_track fps
        (List.foldl (AnimationResource.add_track fps)
          (AnimationResource.init name) ts)
        ⟨ty, pathStr, interp, [], vals⟩).track_count
      = (List.foldl (AnimationResource.add_track fps)
          (AnimationResource.init name) ts).track_count + 1 := by
  have hlen0 : trackLengthOf fps (⟨ty, pathStr, interp, [], vals⟩ : Track V) = 0 := by
    simp [trackLengthOf, Track.frame_end]
  refine ⟨rfl, rfl, ?_, add_track_count_succ fps _ _⟩
  rw [add_track_length_eq_max, hlen0]
  have h0 : (0 : Rat) ≤ (List.foldl (AnimationResource.add_track fps)
      (AnimationResource.init name) ts).length := by
    rw [foldl_add_track_length]
    exact le_foldl_max fps ts 0
  exact max_eq_left h0

/-! ### C9: TransformFrame.to_matrix -/

theorem matTo4x4_scale_diagonal (s : Rat × Rat × Rat) :
    matTo4x4 !![s.1, 0, 0; 0, s.2.1, 0; 0, 0, s.2.2]
      = Matrix.diagonal ![s.1, s.2.1, s.2.2, 1] := by
  funext i j
  fin_cases i <;> fin_cases j <;>
    simp [matTo4x4, Matrix.diagonal_apply, Matrix.vecHead, Matrix.vecTail]

theorem TRS_last_column (loc : Rat × Rat × Rat) (R : Mat3)
    (sca : Rat × Rat × Rat) : ∀ i : Fin 4,
    (matTranslation loc * matTo4x4 R *
      matTo4x4 !![sca.1, 0, 0; 0, sca.2.1, 0; 0, 0, sca.2.2]) i 3
      = ![loc.1, loc.2.1, loc.2.2, 1] i := by
  intro i
  fin_cases i <;>
    simp [matTranslation, matTo4x4, Matrix.mul_apply, Fin.sum_univ_four,
      Matrix.vecHead, Matrix.vecTail]

theorem TRS_last_row (loc : Rat × Rat × Rat) (R : Mat3)
    (sca : Rat × Rat × Rat) : ∀ j : Fin 4,
    (matTranslation loc * matTo4x4 R *
      matTo4x4 !![sca.1, 0, 0; 0, sca.2.1, 0; 0, 0, sca.2.2]) 3 j
      = ![0, 0, 0, 1] j := by
  intro j
  fin_cases j <;>
    simp [matTranslation, matTo4x4, Matrix.mul_apply, Fin.sum_univ_four,
      Matrix.vecHead, Matrix.vecTail]

/-- C9: `TransformFrame.to_matrix` is the product
(translation matrix) x (rotation matrix) x (scale matrix), in exactly that
order; the rotation matrix comes from the quaternion iff the frame's rotation
mode is 'QUATERNION' and from the Euler rotation otherwise; the scale matrix
is the diagonal of the three scale components.  Consequently the last column
of the result carries the unscaled, unrotated translation and the last row is
(0, 0, 0, 1) — which pins the multiplication order down. -/
theorem c9_to_matrix_product {M Q E : Type} (ctx : MathCtx M Q E)
    (f : TransformFrame Q E) :
    f.to_matrix ctx
      = matTranslation f.location
        * matTo4x4 (if f.rotation_mode = "QUATERNION"
            then ctx.quatToMatrix f.rotation_quaternion
            else ctx.eulerToMatrix f.rotation_euler)
        * Matrix.diagonal ![f.scale.1, f.scale.2.1, f.scale.2.2, 1]
    ∧ (∀ i : Fin 4, (f.to_matrix ctx) i 3
        = ![f.location.1, f.location.2.1, f.location.2.2, 1] i)
    ∧ (∀ j : Fin 4, (f.to_matrix ctx) 3 j = ![0, 0, 0, 1] j) := by
  have hmain : f.to_matrix ctx
      = matTranslation f.location
        * matTo4x4 (if f.rotation_mode = "QUATERNION"
            then ctx.quatToMatrix f.rotation_quaternion
            else ctx.eulerToMatrix f.rotation_euler)
        * matTo4x4 !![f.scale.1, 0, 0; 0, f.scale.2.1, 0; 0, 0, f.scale.2.2] := by
    unfold TransformFrame.to_matrix
    by_cases hm : f.rotation_mode = "QUATERNION" <;> simp [hm]
  refine ⟨?_, ?_, ?_⟩
  · rw [hmain, matTo4x4_scale_diagonal]
  · rw [hmain]
    exact TRS_last_column f.location _ f.scale
  · rw [hmain]
    exact TRS_last_row f.location _ f.scale

/-! ### C7: unsupported bone curves are excluded -/

theorem lookup_append_of_none {β : Type} (l₁ l₂ : List (PyStr × β)) (p : PyStr)
    (h : l₁.lookup p = none) : (l₁ ++ l₂).lookup p = l₂.lookup p := by
  induction l₁ with
  | nil => rfl
  | cons hd tl ih =>
    obtain ⟨a, b⟩ := hd
    cases hpb : p == a with
    | true => simp [List.lookup, hpb] at h
    | false =>
      simp only [List.lookup, hpb] at h
      simpa [List.lookup, hpb] using ih h

theorem lookup_isNone_update {β : Type} (path : PyStr) (f : β → β)
    (l : List (PyStr × β)) (p : PyStr) :
    (((l.map (fun pr => if pr.1 = path then (pr.1, f pr.2) else pr)).lookup p).isNone)
      = ((l.lookup p).isNone) := by
  induction l with
  | nil => rfl
  | cons hd tl ih =>
    obtain ⟨a, b⟩ := hd
    simp only [List.map_cons]
    by_cases hk : a = path
    · rw [if_pos hk]
      cases hpb : p == a with
      | true => simp [List.lookup, hpb]
      | false => simp [List.lookup, hpb, ih]
    · rw [if_neg hk]
      cases hpb : p == a with
      | true => simp [List.lookup, hpb]
      | false => simp [List.lookup, hpb, ih]

theorem lookup_singleton_self {β : Type} (p : PyStr) (v : β) :
    ([(p, v)] : List (PyStr × β)).lookup p = some v := by
  simp [List.lookup]

/-- The aggregation loop never raises, as long as
`init_transform_frame_values` itself does not raise on the paths it is given
(the `KeyError` subscript on line 534 is protected by the `continue`), and a
path whose initialization yields no frame list never gets a map entry. -/
theorem processTransformFCurves_ok {M Q E : Type} [DecidableEq Q] [DecidableEq E]
    (ctx : MathCtx M Q E) (obj : BObjectInfo M) (node : GodotNodeInfo)
    (first_frame last_frame : Int) (fcs : List FCurveInfo) :
    ∀ (acc : List (PyStr × List (TransformFrame Q E))) (warns : List PyStr),
    (∀ fc ∈ fcs, ∃ res,
      init_transform_frame_values ctx (split_fcurve_data_path fc.data_path).1
        obj node first_frame last_frame = Except.ok res) →
    ∃ out, processTransformFCurves ctx obj node first_frame last_frame fcs acc warns
        = Except.ok out
      ∧ ∀ p : PyStr,
          (∀ fv wz, init_transform_frame_values ctx p obj node first_frame last_frame
            = Except.ok (fv, wz) → fv = none ∨ fv = some []) →
          (acc.lookup p).isNone → (out.1.lookup p).isNone := by
  induction fcs with
  | nil =>
    intro acc warns _
    exact ⟨(acc, warns), rfl, fun p _ h => h⟩
  | cons fc rest ih =>
    intro acc warns hInit
    obtain ⟨res, hres⟩ := hInit fc (List.mem_cons_self fc rest)
    obtain ⟨fv?, w2⟩ := res
    have hInitRest : ∀ fc' ∈ rest, ∃ res,
        init_transform_frame_values ctx (split_fcurve_data_path fc'.data_path).1
          obj node first_frame last_frame = Except.ok res :=
      fun fc' h => hInit fc' (List.mem_cons_of_mem fc h)
    by_cases hcond : ((acc.lookup (split_fcurve_data_path fc.data_path).1).isNone
        ∧ (split_fcurve_data_path fc.data_path).2 ∈ TransformFrameATTRIBUTES)
    · -- initialization branch
      cases fv? with
      | none =>
        obtain ⟨out, hout, hpres⟩ := ih acc (warns ++ w2) hInitRest
        refine ⟨out, ?_, hpres⟩
        simp only [processTransformFCurves, if_pos hcond, hres]
        exact hout
      | some fv =>
        cases fv with
        | nil =>
          obtain ⟨out, hout, hpres⟩ := ih acc (warns ++ w2) hInitRest
          refine ⟨out, ?_, hpres⟩
          simp only [processTransformFCurves, if_pos hcond, hres]
          exact hout
        | cons f0 fs =>
          -- the group is inserted, then updated in place
          have hlookup : ((acc ++ [((split_fcurve_data_path fc.data_path).1, f0 :: fs)]).lookup
              (split_fcurve_data_path fc.data_path).1) = some (f0 :: fs) := by
            rw [lookup_append_of_none _ _ _ (Option.isNone_iff_eq_none.mp hcond.1)]
            exact lookup_singleton_self _ _
          have hstep : fcurveUpdateStep ctx first_frame fc
              (split_fcurve_data_path fc.data_path).1
              (split_fcurve_data_path fc.data_path).2
              (acc ++ [((split_fcurve_data_path fc.data_path).1, f0 :: fs)])
              = Except.ok ((acc ++ [((split_fcurve_data_path fc.data_path).1, f0 :: fs)]).map
                  (fun pr => if pr.1 = (split_fcurve_data_path fc.data_path).1 then
                    (pr.1, pr.2.mapIdx (fun i fr =>
                      fr.update ctx (split_fcurve_data_path fc.data_path).2 fc.array_index
                        (fc.evaluate (first_frame + i))))
                  else pr)) := by
            unfold fcurveUpdateStep
            rw [if_pos hcond.2, hlookup]
          obtain ⟨out, hout, hpres⟩ := ih _ (warns ++ w2) hInitRest
          refine ⟨out, ?_, ?_⟩
          · simp only [processTransformFCurves, if_pos hcond, hres, hstep]
            exact hout
          · intro p hp hacc
            refine hpres p hp ?_
            rw [lookup_isNone_update]
            have hne : ¬ p = (split_fcurve_data_path fc.data_path).1 := by
              intro he
              rcases hp _ _ (he ▸ hres) with h | h <;> simp at h
            rw [lookup_append_of_none _ _ _ (Option.isNone_iff_eq_none.mp hacc)]
            have hl : (([((split_fcurve_data_path fc.data_path).1, f0 :: fs)] :
                List (PyStr × List (TransformFrame Q E))).lookup p) = none := by
              cases hpq : p == (split_fcurve_data_path fc.data_path).1 with
              | true => exact absurd (eq_of_beq hpq) hne
              | false => simp [List.lookup, hpq]
            rw [hl]
            rfl
    · -- no initialization: only the update step runs
      by_cases hattr : (split_fcurve_data_path fc.data_path).2 ∈ TransformFrameATTRIBUTES
      · have hsome : ¬ (acc.lookup (split_fcurve_data_path fc.data_path).1).isNone := by
          intro hno
          exact hcond ⟨hno, hattr⟩
        obtain ⟨v, hv⟩ : ∃ v, acc.lookup (split_fcurve_data_path fc.data_path).1 = some v := by
          cases h : acc.lookup (split_fcurve_data_path fc.data_path).1 with
          | none => exact absurd (by simp [h]) hsome
          | some v => exact ⟨v, rfl⟩
        have hstep : fcurveUpdateStep ctx first_frame fc
            (split_fcurve_data_path fc.data_path).1
            (split_fcurve_data_path fc.data_path).2 acc
            = Except.ok (acc.map
                (fun pr => if pr.1 = (split_fcurve_data_path fc.data_path).1 then
                  (pr.1, pr.2.mapIdx (fun i fr =>
                    fr.update ctx (split_fcurve_data_path fc.data_path).2 fc.array_index
                      (fc.evaluate (first_frame + i))))
                else pr)) := by
          unfold fcurveUpdateStep
          rw [if_pos hattr, hv]
        obtain ⟨out, hout, hpres⟩ := ih _ warns hInitRest
        refine ⟨out, ?_, ?_⟩
        · simp only [processTransformFCurves, if_neg hcond, hstep]
          exact hout
        · intro p hp hacc
          refine hpres p hp ?_
          rw [lookup_isNone_update]
          exact hacc
      · have hstep : fcurveUpdateStep ctx first_frame fc
            (split_fcurve_data_path fc.data_path).1
            (split_fcurve_data_path fc.data_path).2 acc = Except.ok acc := by
          unfold fcurveUpdateStep
          rw [if_neg hattr]
        obtain ⟨out, hout, hpres⟩ := ih acc warns hInitRest
        refine ⟨out, ?_, hpres⟩
        simp only [processTransformFCurves, if_neg hcond, hstep]
        exact hout

/-- C7 counterexample: a location fcurve for bone `B` under an exported
Skeleton that dropped bone `B` (`find_bone_id` = -1) is skipped, but with an
EMPTY warning list — the claim's "with a warning logged ... in both
unsupported cases" fails for the absent-bone case, which is silent. -/
theorem c7_counterexample :
    init_transform_frame_values unitCtx c7BonePath c7ArmObj c7Skeleton 1 11
      = Except.ok (none, ([] : List PyStr)) := rfl

/-- C7 (amended): a curve group whose entity path names a pose bone is
excluded without raising an error in both unsupported cases — when the target
node is not a 'Skeleton' a warning is logged, while a bone absent from the
exported skeleton is skipped silently (no warning); in both cases no frame
list is initialized, the aggregation loop never raises, and no entry (hence
no track) is produced for that entity path. -/
theorem c7_bone_curve_exclusion {M Q E : Type} [DecidableEq Q] [DecidableEq E]
    (ctx : MathCtx M Q E) (obj : BObjectInfo M) (node : GodotNodeInfo)
    (first_frame last_frame : Int) :
    (∀ object_path bn, object_path.take 4 = "pose".toList →
      blender_path_to_bone_name object_path = some bn →
      node.typ ≠ "Skeleton" →
      init_transform_frame_values ctx object_path obj node first_frame last_frame
        = Except.ok (none,
            ["Skip a bone fcurve in a non-armature object '".toList
              ++ obj.name ++ "'".toList]))
    ∧ (∀ object_path bn, object_path.take 4 = "pose".toList →
      blender_path_to_bone_name object_path = some bn →
      node.typ = "Skeleton" →
      find_bone_id node bn = -1 →
      init_transform_frame_values ctx object_path obj node first_frame last_frame
        = Except.ok (none, []))
    ∧ (∀ (fcs : List FCurveInfo) (acc : List (PyStr × List (TransformFrame Q E)))
        (warns : List PyStr),
      (∀ fc ∈ fcs, ∃ res,
        init_transform_frame_values ctx (split_fcurve_data_path fc.data_path).1
          obj node first_frame last_frame = Except.ok res) →
      ∃ out, processTransformFCurves ctx obj node first_frame last_frame fcs acc warns
          = Except.ok out
        ∧ ∀ p : PyStr,
            (∀ fv wz, init_transform_frame_values ctx p obj node first_frame last_frame
              = Except.ok (fv, wz) → fv = none ∨ fv = some []) →
            (acc.lookup p).isNone → (out.1.lookup p).isNone) := by
  refine ⟨?_, ?_, processTransformFCurves_ok ctx obj node first_frame last_frame⟩
  · intro object_path bn hpose hbn hns
    unfold init_transform_frame_values
    rw [hpose, if_pos rfl, hbn]
    simp [hns]
  · intro object_path bn hpose hbn hsk hbone
    unfold init_transform_frame_values
    rw [hpose, if_pos rfl, hbn]
    simp [hsk, hbone]

/-- Witness for C7's amended theorem, at the two concrete unsupported
configurations (non-skeleton target, absent bone) and a one-fcurve run of the
aggregation loop. -/
theorem c7_bone_curve_exclusion_witness :
    init_transform_frame_values unitCtx c7BonePath c7ArmObj c7Spatial 1 11
      = Except.ok (none,
          ["Skip a bone fcurve in a non-armature object '".toList
            ++ c7ArmObj.name ++ "'".toList])
    ∧ init_transform_frame_values unitCtx c7BonePath c7ArmObj c7Skeleton 1 11
      = Except.ok (none, [])
    ∧ ∃ out, processTransformFCurves unitCtx c7ArmObj c7Skeleton 1 11
        [c7BoneFCurve] [] [] = Except.ok out
      ∧ ∀ p : PyStr,
          (∀ fv wz, init_transform_frame_values unitCtx p c7ArmObj c7Skeleton 1 11
            = Except.ok (fv, wz) → fv = none ∨ fv = some []) →
          (([] : List (PyStr × List (TransformFrame Unit Unit))).lookup p).isNone →
          (out.1.lookup p).isNone := by
  refine ⟨?_, ?_, ?_⟩
  · exact (c7_bone_curve_exclusion unitCtx c7ArmObj c7Spatial 1 11).1
      c7BonePath "B".toList (by decide) (by decide) (by decide)
  · exact (c7_bone_curve_exclusion unitCtx c7ArmObj c7Skeleton 1 11).2.1
      c7BonePath "B".toList (by decide) (by decide) rfl (by decide)
  · exact (c7_bone_curve_exclusion unitCtx c7ArmObj c7Skeleton 1 11).2.2
      [c7BoneFCurve] [] [] (by
        intro fc hfc
        rw [List.mem_singleton] at hfc
        subst hfc
        exact ⟨(none, []), rfl⟩)

/-! ### C6: AnimationPlayer scope resolution -/

theorem find?_append_of_none {α : Type} (p : α → Bool) (l₁ l₂ : List α)
    (h : l₁.find? p = none) : (l₁ ++ l₂).find? p = l₂.find? p := by
  induction l₁ with
  | nil => rfl
  | cons hd tl ih =>
    cases hp : p hd with
    | true => simp [List.find?, hp] at h
    | false =>
      simp only [List.find?, hp] at h
      simpa [List.find?, hp] using ih h

theorem find?_append_of_some {α : Type} (p : α → Bool) (l₁ l₂ : List α)
    (a : α) (h : l₁.find? p = some a) : (l₁ ++ l₂).find? p = some a := by
  induction l₁ with
  | nil => simp [List.find?] at h
  | cons hd tl ih =>
    cases hp : p hd with
    | true =>
      simp only [List.find?, hp] at h
      simpa [List.find?, hp] using h
    | false =>
      simp only [List.find?, hp] at h
      simpa [List.find?, hp] using ih h

theorem gscene_find_append (nodes : List GNode) (nid nid' : Nat) (x : GNode)
    (i : Nat) (hx : ¬ x.id = i) :
    GScene.find ⟨nodes ++ [x], nid'⟩ i = GScene.find ⟨nodes, nid⟩ i := by
  unfold GScene.find
  cases hf : List.find? (fun n => n.id = i) nodes with
  | some a => exact find?_append_of_some _ _ _ a hf
  | none =>
    rw [find?_append_of_none _ _ _ hf]
    simp [List.find?, hx]

theorem rootOf_append (s : GScene) (x : GNode) (nid' : Nat)
    (hwf : ∀ m ∈ s.nodes, ∀ r, m.parent = some r → r < m.id)
    (hx : s.next_id ≤ x.id) :
    ∀ i, i < s.next_id →
    GScene.rootOf ⟨s.nodes ++ [x], nid'⟩ i = s.rootOf i := by
  intro i
  induction i using Nat.strong_induction_on with
  | _ i ih =>
    intro hi
    have hfind : GScene.find ⟨s.nodes ++ [x], nid'⟩ i = s.find i := by
      have := gscene_find_append s.nodes s.next_id nid' x i (by omega)
      simpa using this
    rw [GScene.rootOf.eq_def, GScene.rootOf.eq_def, hfind]
    cases hf : (s.find i).bind GNode.parent with
    | none => rfl
    | some q =>
      have hq : q < i := by
        cases hfi : s.find i with
        | none => rw [hfi] at hf; exact absurd hf (by simp)
        | some m =>
          rw [hfi] at hf
          have hmem : m ∈ s.nodes := List.mem_of_find?_eq_some hfi
          have hid : m.id = i := by
            have := List.find?_some hfi
            exact of_decide_eq_true this
          have hpar : m.parent = some q := by simpa using hf
          have := hwf m hmem q hpar
          omega
      have hrec := ih q (by omega) (by omega)
      simp only [dif_pos hq, hrec]

theorem childrenOf_append_player (s : GScene) (nid' : Nat) (x : GNode) (i : Nat)
    (hpar : x.parent = some i) :
    GScene.childrenOf ⟨s.nodes ++ [x], nid'⟩ i = s.childrenOf i ++ [x] := by
  unfold GScene.childrenOf
  rw [List.filter_append]
  simp [hpar]

theorem firstPlayerChild_append (s : GScene) (nid' : Nat) (x : GNode) (i : Nat)
    (hpar : x.parent = some i) (htyp : x.typ = "AnimationPlayer")
    (hnone : firstPlayerChild s i = none) :
    firstPlayerChild ⟨s.nodes ++ [x], nid'⟩ i = some x := by
  unfold firstPlayerChild at hnone ⊢
  rw [childrenOf_append_player s nid' x i hpar,
    find?_append_of_none _ _ _ hnone]
  simp [List.find?, htyp]

theorem gap_actions_creates (s : GScene) (n : Nat) :
    get_animation_player "ACTIONS" s n
      = (s.next_id, ⟨s.nodes ++ [⟨s.next_id, "AnimationPlayer", some n⟩],
          s.next_id + 1⟩) := by
  simp [get_animation_player]

theorem gap_scene_reuse (s : GScene) (n : Nat) (p : GNode)
    (hfp : firstPlayerChild s (s.rootOf n) = some p) :
    get_animation_player "SCENE_ANIMATION" s n = (p.id, s) := by
  simp [get_animation_player, hfp]

theorem gap_scene_create (s : GScene) (n : Nat)
    (hfp : firstPlayerChild s (s.rootOf n) = none) :
    get_animation_player "SCENE_ANIMATION" s n
      = (s.next_id, ⟨s.nodes ++ [⟨s.next_id, "AnimationPlayer", some (s.rootOf n)⟩],
          s.next_id + 1⟩) := by
  simp [get_animation_player, hfp]

theorem gap_squashed_reuse (s : GScene) (n : Nat) (pid : Nat)
    (hsq : squashedFind s n = some pid) :
    get_animation_player "SQUASHED_ACTIONS" s n = (pid, s) := by
  simp [get_animation_player, hsq]

theorem gap_squashed_create (s : GScene) (n : Nat)
    (hsq : squashedFind s n = none) :
    get_animation_player "SQUASHED_ACTIONS" s n
      = (s.next_id, ⟨s.nodes ++ [⟨s.next_id, "AnimationPlayer", some n⟩],
          s.next_id + 1⟩) := by
  simp [get_animation_player, hsq]

theorem squashedFind_none_first (s : GScene) (n : Nat)
    (h : squashedFind s n = none) : firstPlayerChild s n = none := by
  cases hfp : firstPlayerChild s n with
  | none => rfl
  | some p =>
    rw [squashedFind.eq_def, hfp] at h
    exact absurd h (by simp)

theorem gap_scene_idem (s : GScene) (n q : Nat) (s' : GScene)
    (hwf : ∀ m ∈ s.nodes, m.id < s.next_id ∧ ∀ r, m.parent = some r → r < m.id)
    (hn : n < s.next_id)
    (hcall : get_animation_player "SCENE_ANIMATION" s n = (q, s')) :
    get_animation_player "SCENE_ANIMATION" s' n = (q, s') := by
  cases hfp : firstPlayerChild s (s.rootOf n) with
  | some p =>
    rw [gap_scene_reuse s n p hfp] at hcall
    obtain ⟨h1, h2⟩ := Prod.mk.injEq .. ▸ hcall
    subst h2
    rw [gap_scene_reuse s n p hfp, h1]
  | none =>
    rw [gap_scene_create s n hfp] at hcall
    obtain ⟨h1, h2⟩ := Prod.mk.injEq .. ▸ hcall
    subst h1
    subst h2
    have hroot : GScene.rootOf ⟨s.nodes ++ [⟨s.next_id, "AnimationPlayer",
        some (s.rootOf n)⟩], s.next_id + 1⟩ n = s.rootOf n := by
      exact rootOf_append s _ _ (fun m hm => (hwf m hm).2) (le_refl _) n hn
    have hfp' : firstPlayerChild ⟨s.nodes ++ [⟨s.next_id, "AnimationPlayer",
        some (s.rootOf n)⟩], s.next_id + 1⟩ (s.rootOf n)
        = some ⟨s.next_id, "AnimationPlayer", some (s.rootOf n)⟩ :=
      firstPlayerChild_append s _ _ _ rfl rfl hfp
    have := gap_scene_reuse ⟨s.nodes ++ [⟨s.next_id, "AnimationPlayer",
        some (s.rootOf n)⟩], s.next_id + 1⟩ n _ (by rw [hroot]; exact hfp')
    simpa using this

theorem gap_squashed_idem (s : GScene) (n q : Nat) (s' : GScene)
    (hcall : get_animation_player "SQUASHED_ACTIONS" s n = (q, s')) :
    get_animation_player "SQUASHED_ACTIONS" s' n = (q, s') := by
  cases hsq : squashedFind s n with
  | some pid =>
    rw [gap_squashed_reuse s n pid hsq] at hcall
    obtain ⟨h1, h2⟩ := Prod.mk.injEq .. ▸ hcall
    subst h2
    rw [gap_squashed_reuse s n pid hsq, h1]
  | none =>
    rw [gap_squashed_create s n hsq] at hcall
    obtain ⟨h1, h2⟩ := Prod.mk.injEq .. ▸ hcall
    subst h1
    subst h2
    have hfp' : firstPlayerChild ⟨s.nodes ++ [⟨s.next_id, "AnimationPlayer",
        some n⟩], s.next_id + 1⟩ n = some ⟨s.next_id, "AnimationPlayer", some n⟩ :=
      firstPlayerChild_append s _ _ _ rfl rfl (squashedFind_none_first s n hsq)
    have hsq' : squashedFind ⟨s.nodes ++ [⟨s.next_id, "AnimationPlayer",
        some n⟩], s.next_id + 1⟩ n = some s.next_id := by
      rw [squashedFind.eq_def, hfp']
    exact gap_squashed_reuse _ n _ hsq'

/-- C6 counterexample: under the per-object 'ACTIONS' policy
`get_animation_player` performs no search at all — two successive calls for
the same node create two distinct AnimationPlayer nodes, contradicting
"repeated calls for the same node under the same policy never produce a
duplicate AnimationPlayer". -/
theorem c6_counterexample :
    ((get_animation_player "ACTIONS"
        (get_animation_player "ACTIONS" c6Scene0 0).2 0).2.nodes.filter
      (fun nd => nd.typ = "AnimationPlayer")).length = 2 := by decide

/-- C6 (amended): in 'SCENE_ANIMATION' and 'SQUASHED_ACTIONS' modes an
existing AnimationPlayer along the mode's search path is reused (the scene is
returned unchanged) and a repeated call for the same node never creates a
second player; in 'ACTIONS' mode no search is performed and every call
creates a fresh AnimationPlayer under the node, so repeated calls duplicate. -/
theorem c6_animation_player_scope :
    (∀ (s : GScene) (n : Nat),
      get_animation_player "ACTIONS" s n
        = (s.next_id, ⟨s.nodes ++ [⟨s.next_id, "AnimationPlayer", some n⟩],
            s.next_id + 1⟩))
    ∧ (∀ (s : GScene) (n : Nat) (p : GNode),
      firstPlayerChild s (s.rootOf n) = some p →
      get_animation_player "SCENE_ANIMATION" s n = (p.id, s))
    ∧ (∀ (s : GScene) (n q : Nat) (s' : GScene),
      (∀ m ∈ s.nodes, m.id < s.next_id ∧ ∀ r, m.parent = some r → r < m.id) →
      n < s.next_id →
      get_animation_player "SCENE_ANIMATION" s n = (q, s') →
      get_animation_player "SCENE_ANIMATION" s' n = (q, s'))
    ∧ (∀ (s : GScene) (n : Nat) (pid : Nat),
      squashedFind s n = some pid →
      get_animation_player "SQUASHED_ACTIONS" s n = (pid, s))
    ∧ (∀ (s : GScene) (n q : Nat) (s' : GScene),
      get_animation_player "SQUASHED_ACTIONS" s n = (q, s') →
      get_animation_player "SQUASHED_ACTIONS" s' n = (q, s')) :=
  ⟨gap_actions_creates, gap_scene_reuse, gap_scene_idem,
   gap_squashed_reuse, gap_squashed_idem⟩

/-- Witness for C6's amended theorem: on the one-node scene, the second
SCENE_ANIMATION call and the second SQUASHED_ACTIONS call each return the
player created by the first call without touching the scene. -/
theorem c6_animation_player_scope_witness :
    get_animation_player "SCENE_ANIMATION"
        (get_animation_player "SCENE_ANIMATION" c6Scene0 0).2 0
      = ((get_animation_player "SCENE_ANIMATION" c6Scene0 0).1,
         (get_animation_player "SCENE_ANIMATION" c6Scene0 0).2)
    ∧ get_animation_player "SQUASHED_ACTIONS"
        (get_animation_player "SQUASHED_ACTIONS" c6Scene0 0).2 0
      = ((get_animation_player "SQUASHED_ACTIONS" c6Scene0 0).1,
         (get_animation_player "SQUASHED_ACTIONS" c6Scene0 0).2) := by
  constructor
  · exact c6_animation_player_scope.2.2.1 c6Scene0 0
      (get_animation_player "SCENE_ANIMATION" c6Scene0 0).1
      (get_animation_player "SCENE_ANIMATION" c6Scene0 0).2
      (by decide) (by decide) rfl
  · exact c6_animation_player_scope.2.2.2.2 c6Scene0 0
      (get_animation_player "SQUASHED_ACTIONS" c6Scene0 0).1
      (get_animation_player "SQUASHED_ACTIONS" c6Scene0 0).2 rfl

/-! ### C8: bake frame-range selection -/

theorem lookupA_append_of_some (l : List (Nat × BAction)) (x : Nat × BAction)
    (i : Nat) (act : BAction)
    (h : (l.find? (fun p => p.1 = i)).map Prod.snd = some act) :
    (((l ++ [x]).find? (fun p => p.1 = i)).map Prod.snd) = some act := by
  cases hf : l.find? (fun p => p.1 = i) with
  | none => rw [hf] at h; simp at h
  | some pr =>
    rw [find?_append_of_some _ _ _ pr hf]
    rw [hf] at h
    exact h

/-- C8: with no base action, `bake_constraint_to_action` samples the fixed
default range of frames 1 to 250 and the range-setup step leaves the active
action untouched; with a base action it first makes that action active and
samples the action's declared frame range converted to the half-open integer
range [first, last+1). -/
theorem c8_bake_uses_declared_or_default_range (objn : PyStr)
    (bake_type : String) (in_place : Bool) (w : World) :
    (∃ r w', bake_constraint_to_action objn none bake_type in_place w
        = Except.ok (r, w')
      ∧ ∃ e : BakeEvent, w'.bake_log = w.bake_log ++ [e]
        ∧ e.frame_start = 1 ∧ e.frame_end = 250
        ∧ e.active_at_call = w.activeAction)
    ∧ (∀ (a : Nat) (act : BAction) (ad : AnimData),
      w.findAction a = some act → w.anim_data = some ad →
      ∃ r w', bake_constraint_to_action objn (some a) bake_type in_place w
          = Except.ok (r, w')
        ∧ ∃ e : BakeEvent, w'.bake_log = w.bake_log ++ [e]
          ∧ e.active_at_call = some a
          ∧ e.frame_start = pyInt act.frame_range.1
          ∧ e.frame_end = pyInt act.frame_range.2 + 1) := by
  constructor
  · cases in_place with
    | true =>
      simp only [bake_constraint_to_action, bake_action, if_true, if_false,
        Bool.false_eq_true, Bool.true_eq_false, ite_true, ite_false]
      exact ⟨_, _, rfl, _, rfl, rfl, rfl, rfl⟩
    | false =>
      simp only [bake_constraint_to_action, bake_action, if_true, if_false,
        Bool.false_eq_true, Bool.true_eq_false, ite_true, ite_false]
      exact ⟨_, _, rfl, _, rfl, rfl, rfl, rfl⟩
  · intro a act ad hfind had
    have key : ∀ (x : Nat × BAction) (nid : Nat) (ad' : Option AnimData)
        (bl : List BakeEvent),
        (⟨w.actions ++ [x], nid, ad', bl⟩ : World).findAction a = some act := by
      intro x nid ad' bl
      unfold World.findAction at hfind ⊢
      exact lookupA_append_of_some w.actions x a act hfind
    cases in_place with
    | true =>
      simp only [bake_constraint_to_action, bake_action, hfind, had, if_true,
        if_false, Bool.false_eq_true, Bool.true_eq_false, ite_true, ite_false]
      exact ⟨_, _, rfl, _, rfl, rfl, rfl, rfl⟩
    | false =>
      simp only [bake_constraint_to_action, bake_action, hfind, had, key, if_true,
        if_false, Bool.false_eq_true, Bool.true_eq_false, ite_true, ite_false]
      exact ⟨_, _, rfl, _, rfl, rfl, rfl, rfl⟩

/-- Witness for C8 at a concrete world: baking the `Walk` action (frames
1-10) makes it active and samples [1, 11); its event is the only one logged. -/
theorem c8_bake_uses_declared_or_default_range_witness :
    ∃ r w', bake_constraint_to_action "Obj".toList (some 0) "POSE" false c2World0
        = Except.ok (r, w')
      ∧ ∃ e : BakeEvent, w'.bake_log = c2World0.bake_log ++ [e]
        ∧ e.active_at_call = some 0
        ∧ e.frame_start = pyInt (⟨"Walk".toList, (1, 10)⟩ : BAction).frame_range.1
        ∧ e.frame_end = pyInt (⟨"Walk".toList, (1, 10)⟩ : BAction).frame_range.2 + 1 :=
  (c8_bake_uses_declared_or_default_range "Obj".toList "POSE" false c2World0).2
    0 ⟨"Walk".toList, (1, 10)⟩ ⟨some 0, [some 0, some 0]⟩ rfl rfl

/-! ### Explicit output characterizations of bake_constraint_to_action -/

theorem map_rename_fresh (l : List (Nat × BAction)) (i : Nat) (n : PyStr)
    (act : BAction) (hfr : ∀ p ∈ l, ¬ p.1 = i) :
    (l ++ [(i, act)]).map
        (fun p => if p.1 = i then (p.1, ⟨n, p.2.frame_range⟩) else p)
      = l ++ [(i, ⟨n, act.frame_range⟩)] := by
  rw [List.map_append]
  congr 1
  · induction l with
    | nil => rfl
    | cons hd tl ih =>
      rw [List.map_cons, if_neg (hfr hd (List.mem_cons_self hd tl)),
        ih (fun p hp => hfr p (List.mem_cons_of_mem hd hp))]
  · simp

theorem lookupA_append_fresh (l : List (Nat × BAction)) (i : Nat)
    (x : BAction) (hfr : ∀ p ∈ l, ¬ p.1 = i) :
    (((l ++ [(i, x)]).find? (fun p => p.1 = i)).map Prod.snd) = some x := by
  have hnone : l.find? (fun p => p.1 = i) = none := by
    apply List.find?_eq_none.mpr
    intro p hp
    simp [hfr p hp]
  rw [find?_append_of_none _ _ _ hnone]
  simp [List.find?]

theorem bake_ip_some_clean (objn : PyStr) (bt : String) (w : World) (a : Nat)
    (act : BAction) (ad : AnimData)
    (hfind : w.findAction a = some act) (had : w.anim_data = some ad) :
    bake_constraint_to_action objn (some a) bt true w
      = Except.ok (some a,
          ⟨w.actions, w.next_id,
            some ⟨some a, ad.nla_strip_actions⟩,
            w.bake_log ++ [⟨(get_action_frame_range act).1,
              (get_action_frame_range act).2, some a,
              decide (bt = "POSE"), !decide (bt = "POSE"), some a, a⟩]⟩) := by
  simp only [bake_constraint_to_action, bake_action, World.activeAction, hfind,
    had, if_true, if_false, Bool.false_eq_true, Bool.true_eq_false, ite_true,
    ite_false]

theorem bake_nip_some_clean (objn : PyStr) (bt : String) (w : World) (a : Nat)
    (act : BAction) (ad : AnimData)
    (hfind : w.findAction a = some act) (had : w.anim_data = some ad)
    (hfresh : ∀ p ∈ w.actions, ¬ p.1 = w.next_id) :
    bake_constraint_to_action objn (some a) bt false w
      = Except.ok (some w.next_id,
          ⟨w.actions ++ [(w.next_id,
              ⟨pyCutRight act.name BAKING_SUFFIX.length,
                (((get_action_frame_range act).1 : Rat),
                 ((get_action_frame_range act).2 : Rat))⟩)],
            w.next_id + 1,
            some ⟨some w.next_id, ad.nla_strip_actions⟩,
            w.bake_log ++ [⟨(get_action_frame_range act).1,
              (get_action_frame_range act).2, none,
              decide (bt = "POSE"), !decide (bt = "POSE"), some a, w.next_id⟩]⟩) := by
  have hfind2 : ∀ (x : Nat × BAction) (nid : Nat) (ad' : Option AnimData)
      (bl : List BakeEvent),
      World.findAction ⟨w.actions ++ [x], nid, ad', bl⟩ a = some act := by
    intro x nid ad' bl
    unfold World.findAction at hfind ⊢
    exact lookupA_append_of_some w.actions x a act hfind
  simp only [bake_constraint_to_action, bake_action, World.activeAction,
    World.renameAction, hfind, had, if_true, if_false,
    Bool.false_eq_true, Bool.true_eq_false, ite_true, ite_false, hfind2]
  rw [map_rename_fresh w.actions w.next_id _ _ hfresh]

theorem bake_nip_none_clean (objn : PyStr) (bt : String) (w : World)
    (hfresh : ∀ p ∈ w.actions, ¬ p.1 = w.next_id) :
    bake_constraint_to_action objn none bt false w
      = Except.ok (some w.next_id,
          ⟨w.actions ++ [(w.next_id,
              ⟨objn ++ "Action".toList, (((1 : Int) : Rat), ((250 : Int) : Rat))⟩)],
            w.next_id + 1,
            some (match w.anim_data with
              | some ad => ⟨some w.next_id, ad.nla_strip_actions⟩
              | none => ⟨some w.next_id, []⟩),
            w.bake_log ++ [⟨1, 250, none, decide (bt = "POSE"),
              !decide (bt = "POSE"), w.activeAction, w.next_id⟩]⟩) := by
  simp only [bake_constraint_to_action, bake_action, World.renameAction,
    if_true, if_false, Bool.false_eq_true, Bool.true_eq_false, ite_true,
    ite_false]
  rw [map_rename_fresh w.actions w.next_id _ _ hfresh]

theorem findAction_append_fresh_param (w : World)
    (hfresh : ∀ p ∈ w.actions, ¬ p.1 = w.next_id) :
    ∀ (x : BAction) (nid : Nat) (ad' : Option AnimData) (bl : List BakeEvent),
    World.findAction ⟨w.actions ++ [(w.next_id, x)], nid, ad', bl⟩ w.next_id
      = some x := by
  intro x nid ad' bl
  unfold World.findAction
  exact lookupA_append_fresh w.actions w.next_id x hfresh

/-- Output shape of `action_baker` whenever at least one constraint flag is
set: exactly one fresh action (id = the world's next id) is appended, the
fresh action ends up active, the nla strips are untouched, and the fresh
action's id is returned. -/
theorem action_baker_char (objn : PyStr) (hObj hPose : Bool)
    (action_to_bake : Option Nat) (w : World)
    (hflag : hObj = true ∨ hPose = true)
    (hfresh : ∀ p ∈ w.actions, ¬ p.1 = w.next_id)
    (hbase : match action_to_bake with
      | some a => (∃ act, w.findAction a = some act) ∧ ∃ ad, w.anim_data = some ad
      | none => True) :
    ∃ (x : BAction) (w' : World),
      action_baker objn hObj hPose action_to_bake w
        = Except.ok (some w.next_id, w')
      ∧ w'.actions = w.actions ++ [(w.next_id, x)]
      ∧ w'.next_id = w.next_id + 1
      ∧ w'.anim_data = some ⟨some w.next_id,
          match w.anim_data with
          | some ad => ad.nla_strip_actions
          | none => []⟩ := by
  have hfW1 := findAction_append_fresh_param w hfresh
  cases hObj with
  | true =>
    cases hPose with
    | true =>
      -- OBJECT into a fresh intermediate, then POSE in place on it
      cases action_to_bake with
      | none =>
        simp only [action_baker, Bool.and_self, ite_true,
          bake_nip_none_clean objn "OBJECT" w hfresh]
        rw [bake_ip_some_clean objn "POSE" _ w.next_id _ _ (hfW1 _ _ _ _) rfl]
        refine ⟨_, _, rfl, rfl, rfl, ?_⟩
        cases h : w.anim_data <;> simp [h]
      | some a =>
        obtain ⟨⟨act, hfa⟩, ad, had⟩ := hbase
        simp only [action_baker, Bool.and_self, ite_true,
          bake_nip_some_clean objn "OBJECT" w a act ad hfa had hfresh]
        rw [bake_ip_some_clean objn "POSE" _ w.next_id _ _ (hfW1 _ _ _ _) rfl]
        refine ⟨_, _, rfl, rfl, rfl, ?_⟩
        rw [had]
    | false =>
      -- object-only: single non-in-place "POSE" bake (source asymmetry)
      cases action_to_bake with
      | none =>
        simp only [action_baker, Bool.and_false, Bool.false_eq_true, ite_false,
          ite_true, bake_nip_none_clean objn "POSE" w hfresh]
        refine ⟨_, _, rfl, rfl, rfl, ?_⟩
        cases h : w.anim_data <;> simp [h]
      | some a =>
        obtain ⟨⟨act, hfa⟩, ad, had⟩ := hbase
        simp only [action_baker, Bool.and_false, Bool.false_eq_true, ite_false,
          ite_true, bake_nip_some_clean objn "POSE" w a act ad hfa had hfresh]
        refine ⟨_, _, rfl, rfl, rfl, ?_⟩
        rw [had]
  | false =>
    cases hPose with
    | false => rcases hflag with h | h <;> exact absurd h (by decide)
    | true =>
      cases action_to_bake with
      | none =>
        simp only [action_baker, Bool.false_and, Bool.false_eq_true, ite_false,
          ite_true, bake_nip_none_clean objn "POSE" w hfresh]
        refine ⟨_, _, rfl, rfl, rfl, ?_⟩
        cases h : w.anim_data <;> simp [h]
      | some a =>
        obtain ⟨⟨act, hfa⟩, ad, had⟩ := hbase
        simp only [action_baker, Bool.false_and, Bool.false_eq_true, ite_false,
          ite_true, bake_nip_some_clean objn "POSE" w a act ad hfa had hfresh]
        refine ⟨_, _, rfl, rfl, rfl, ?_⟩
        rw [had]

/-- C5: with both a whole-object constraint and a pose constraint,
`action_baker` first bakes with type "OBJECT" (do_object, not do_pose) into a
fresh intermediate action — not in place — then bakes with type "POSE"
(do_pose, not do_object) in place on that same intermediate, and returns that
single intermediate (which is fresh, distinct from every pre-existing
action). -/
theorem c5_object_then_pose_combined_bake (objn : PyStr)
    (action_to_bake : Option Nat) (w : World)
    (hfresh : ∀ p ∈ w.actions, ¬ p.1 = w.next_id)
    (hbase : match action_to_bake with
      | some a => (∃ act, w.findAction a = some act) ∧ ∃ ad, w.anim_data = some ad
      | none => True) :
    ∃ w', action_baker objn true true action_to_bake w
        = Except.ok (some w.next_id, w')
      ∧ (∀ p ∈ w.actions, p.1 ≠ w.next_id)
      ∧ ∃ e1 e2 : BakeEvent, w'.bake_log = w.bake_log ++ [e1, e2]
        ∧ e1.bake_into = none ∧ e1.do_pose = false ∧ e1.do_object = true
        ∧ e1.target = w.next_id
        ∧ e2.bake_into = some w.next_id ∧ e2.do_pose = true
        ∧ e2.do_object = false ∧ e2.target = w.next_id
        ∧ e2.active_at_call = some w.next_id := by
  have hfW1 := findAction_append_fresh_param w hfresh
  cases action_to_bake with
  | none =>
    simp only [action_baker, Bool.and_self, ite_true,
      bake_nip_none_clean objn "OBJECT" w hfresh]
    rw [bake_ip_some_clean objn "POSE" _ w.next_id _ _ (hfW1 _ _ _ _) rfl]
    exact ⟨_, rfl, hfresh, _, _, List.append_assoc _ _ _,
      rfl, rfl, rfl, rfl, rfl, rfl, rfl, rfl, rfl⟩
  | some a =>
    obtain ⟨⟨act, hfa⟩, ad, had⟩ := hbase
    simp only [action_baker, Bool.and_self, ite_true,
      bake_nip_some_clean objn "OBJECT" w a act ad hfa had hfresh]
    rw [bake_ip_some_clean objn "POSE" _ w.next_id _ _ (hfW1 _ _ _ _) rfl]
    exact ⟨_, rfl, hfresh, _, _, List.append_assoc _ _ _,
      rfl, rfl, rfl, rfl, rfl, rfl, rfl, rfl, rfl⟩

/-- Witness for C5 at a concrete world (the `Walk` action as the base). -/
theorem c5_object_then_pose_combined_bake_witness :
    ∃ w', action_baker "Obj".toList true true (some 0) c2World0
        = Except.ok (some c2World0.next_id, w')
      ∧ (∀ p ∈ c2World0.actions, p.1 ≠ c2World0.next_id)
      ∧ ∃ e1 e2 : BakeEvent, w'.bake_log = c2World0.bake_log ++ [e1, e2]
        ∧ e1.bake_into = none ∧ e1.do_pose = false ∧ e1.do_object = true
        ∧ e1.target = c2World0.next_id
        ∧ e2.bake_into = some c2World0.next_id ∧ e2.do_pose = true
        ∧ e2.do_object = false ∧ e2.target = c2World0.next_id
        ∧ e2.active_at_call = some c2World0.next_id :=
  c5_object_then_pose_combined_bake "Obj".toList (some 0) c2World0
    (by decide)
    ⟨⟨⟨"Walk".toList, (1, 10)⟩, rfl⟩, ⟨some 0, [some 0, some 0]⟩, rfl⟩

/-! ### Helper lemmas on the action store (renames, removal) -/

theorem pyCutRight_append (n s : PyStr) : pyCutRight (n ++ s) s.length = n := by
  unfold pyCutRight
  rw [List.length_append, Nat.add_sub_cancel]
  exact List.take_left n s

theorem map_rename_skip (l : List (Nat × BAction)) (i : Nat) (n : PyStr)
    (hf : ∀ p ∈ l, ¬ p.1 = i) :
    l.map (fun p => if p.1 = i then (p.1, ⟨n, p.2.frame_range⟩) else p) = l := by
  induction l with
  | nil => rfl
  | cons hd tl ih =>
    rw [List.map_cons, if_neg (hf hd (List.mem_cons_self hd tl)),
      ih (fun p hp => hf p (List.mem_cons_of_mem hd hp))]

theorem lookupA_map_rename_self (l : List (Nat × BAction)) (i : Nat) (n : PyStr)
    (act : BAction) (h : (l.find? (fun p => p.1 = i)).map Prod.snd = some act) :
    (((l.map (fun p => if p.1 = i then (p.1, ⟨n, p.2.frame_range⟩) else p)).find?
      (fun p => p.1 = i)).map Prod.snd) = some ⟨n, act.frame_range⟩ := by
  induction l with
  | nil => simp [List.find?] at h
  | cons hd tl ih =>
    obtain ⟨a, b⟩ := hd
    by_cases ha : a = i
    · subst ha
      simp only [List.find?] at h
      simp at h
      subst h
      simp [List.find?]
    · have hdec : (decide (a = i)) = false := by simp [ha]
      simp only [List.map_cons, if_neg ha]
      simp only [List.find?, hdec] at h ⊢
      exact ih h

theorem map_rename_compose (l : List (Nat × BAction)) (i : Nat) (n1 n2 : PyStr) :
    ((l.map (fun p => if p.1 = i then (p.1, ⟨n1, p.2.frame_range⟩) else p)).map
      (fun p => if p.1 = i then (p.1, ⟨n2, p.2.frame_range⟩) else p))
    = l.map (fun p => if p.1 = i then (p.1, ⟨n2, p.2.frame_range⟩) else p) := by
  induction l with
  | nil => rfl
  | cons hd tl ih =>
    simp only [List.map_cons, ih]
    by_cases ha : hd.1 = i
    · rw [if_pos ha, if_pos ha, if_pos ha]
    · rw [if_neg ha, if_neg ha]

theorem map_rename_id_of_name (l : List (Nat × BAction)) (i : Nat) (act : BAction)
    (hnd : (l.map Prod.fst).Nodup)
    (h : (l.find? (fun p => p.1 = i)).map Prod.snd = some act) :
    l.map (fun p => if p.1 = i then (p.1, ⟨act.name, p.2.frame_range⟩) else p) = l := by
  induction l with
  | nil => rfl
  | cons hd tl ih =>
    obtain ⟨a, b⟩ := hd
    rw [List.map_cons] at hnd ⊢
    by_cases ha : a = i
    · subst ha
      simp only [List.find?] at h
      simp at h
      subst h
      rw [if_pos rfl]
      have htl : ∀ p ∈ tl, ¬ p.1 = a := by
        intro p hp hpa
        have : a ∈ tl.map Prod.fst := List.mem_map.mpr ⟨p, hp, hpa⟩
        exact (List.nodup_cons.mp hnd).1 this
      rw [map_rename_skip tl a _ htl]
    · have hdec : (decide (a = i)) = false := by simp [ha]
      rw [if_neg ha]
      simp only [List.find?, hdec] at h
      rw [ih (List.nodup_cons.mp hnd).2 h]

theorem filter_append_fresh (l : List (Nat × BAction)) (i : Nat) (x : BAction)
    (hf : ∀ p ∈ l, ¬ p.1 = i) :
    (l ++ [(i, x)]).filter (fun p => ¬ p.1 = i) = l := by
  rw [List.filter_append]
  have h1 : l.filter (fun p => ¬ p.1 = i) = l := by
    apply List.filter_eq_self.mpr
    intro p hp
    simpa using hf p hp
  have h2 : (([(i, x)] : List (Nat × BAction)).filter (fun p => ¬ p.1 = i)) = [] := by
    simp
  rw [h1, h2, List.append_nil]

theorem renameAction_actions (w : World) (i : Nat) (n : PyStr) :
    (w.renameAction i n).actions
      = w.actions.map (fun p => if p.1 = i then (p.1, ⟨n, p.2.frame_range⟩) else p) := rfl

theorem renameAction_next_id (w : World) (i : Nat) (n : PyStr) :
    (w.renameAction i n).next_id = w.next_id := rfl

theorem renameAction_anim_data (w : World) (i : Nat) (n : PyStr) :
    (w.renameAction i n).anim_data = w.anim_data := rfl

theorem removeAction_actions (w : World) (i : Nat) :
    (w.removeAction i).actions = w.actions.filter (fun p => ¬ p.1 = i) := rfl

theorem removeAction_next_id (w : World) (i : Nat) :
    (w.removeAction i).next_id = w.next_id := rfl

theorem removeAction_anim_data (w : World) (i : Nat) :
    (w.removeAction i).anim_data
      = w.anim_data.map (fun ad =>
          if ad.action = some i then ⟨none, ad.nla_strip_actions⟩ else ad) := rfl

/-- Output of `export_nla_action` under `need_bake`: the action store is
restored exactly (bake behind a suffix-rename, fresh baked action deleted,
suffix stripped back off), the active-action slot ends cleared by the
unlinking delete, the strips are untouched, and the logs record one nla
export and one resource registration. -/
theorem export_nla_bake_char (objn : PyStr) (hObj hPose : Bool)
    (hflag : hObj = true ∨ hPose = true) (a : Nat) (st : ExportState)
    (act : BAction) (ad : AnimData)
    (hfind : st.world.findAction a = some act)
    (had : st.world.anim_data = some ad)
    (hfresh : ∀ p ∈ st.world.actions, p.1 < st.world.next_id)
    (hnd : (st.world.actions.map Prod.fst).Nodup) :
    ∃ st', export_nla_action objn hObj hPose true a st = Except.ok st'
      ∧ st'.world.actions = st.world.actions
      ∧ st'.world.anim_data = some ⟨none, ad.nla_strip_actions⟩
      ∧ st.world.next_id ≤ st'.world.next_id
      ∧ st'.default_animation = st.default_animation
      ∧ (∃ re, st'.resource_log = st.resource_log ++ [re])
      ∧ st'.nla_log = st.nla_log ++ [a]
      ∧ st'.exported_actions = st.exported_actions ++ [a] := by
  have hfresh' : ∀ p ∈ st.world.actions, ¬ p.1 = st.world.next_id := by
    intro p hp
    have := hfresh p hp
    omega
  -- the world after the suffix rename
  have hw1acts := renameAction_actions st.world a (act.name ++ BAKING_SUFFIX)
  have hfresh1 : ∀ p ∈ (st.world.renameAction a (act.name ++ BAKING_SUFFIX)).actions,
      ¬ p.1 = (st.world.renameAction a (act.name ++ BAKING_SUFFIX)).next_id := by
    rw [hw1acts, renameAction_next_id]
    intro p hp
    obtain ⟨p0, hp0, hp0e⟩ := List.mem_map.mp hp
    have h1 := hfresh' p0 hp0
    by_cases hpa : p0.1 = a
    · rw [if_pos hpa] at hp0e
      rw [← hp0e]
      simpa [hpa] using h1
    · rw [if_neg hpa] at hp0e
      rw [← hp0e]
      exact h1
  have hfind1 : (st.world.renameAction a (act.name ++ BAKING_SUFFIX)).findAction a
      = some ⟨act.name ++ BAKING_SUFFIX, act.frame_range⟩ := by
    unfold World.findAction at hfind ⊢
    rw [renameAction_actions]
    exact lookupA_map_rename_self st.world.actions a _ act hfind
  obtain ⟨x, w2, hab, hacts2, hnid2, had2⟩ :=
    action_baker_char objn hObj hPose (some a)
      (st.world.renameAction a (act.name ++ BAKING_SUFFIX)) hflag hfresh1
      ⟨⟨_, hfind1⟩, ⟨ad, by rw [renameAction_anim_data]; exact had⟩⟩
  rw [renameAction_next_id] at hacts2 hnid2 had2 hab
  rw [renameAction_anim_data, had] at had2
  -- resource creation on the baked action succeeds
  have hfindF : w2.findAction st.world.next_id = some x := by
    unfold World.findAction
    rw [hacts2, hw1acts]
    apply lookupA_append_fresh
    intro p hp
    obtain ⟨p0, hp0, hp0e⟩ := List.mem_map.mp hp
    have h1 := hfresh' p0 hp0
    by_cases hpa : p0.1 = a
    · rw [if_pos hpa] at hp0e
      rw [← hp0e]
      simpa [hpa] using h1
    · rw [if_neg hpa] at hp0e
      rw [← hp0e]
      exact h1
  -- after removal of the baked action the store is the renamed original
  have hfreshren : ∀ p ∈ (st.world.actions.map (fun p =>
      if p.1 = a then (p.1, ⟨act.name ++ BAKING_SUFFIX, p.2.frame_range⟩) else p)),
      ¬ p.1 = st.world.next_id := by
    intro p hp
    obtain ⟨p0, hp0, hp0e⟩ := List.mem_map.mp hp
    have h1 := hfresh' p0 hp0
    by_cases hpa : p0.1 = a
    · rw [if_pos hpa] at hp0e
      rw [← hp0e]
      simpa [hpa] using h1
    · rw [if_neg hpa] at hp0e
      rw [← hp0e]
      exact h1
  have hrem : (w2.removeAction st.world.next_id).actions
      = st.world.actions.map (fun p =>
          if p.1 = a then (p.1, ⟨act.name ++ BAKING_SUFFIX, p.2.frame_range⟩) else p) := by
    rw [removeAction_actions, hacts2, hw1acts]
    exact filter_append_fresh _ _ _ hfreshren
  have hfinda4 : (w2.removeAction st.world.next_id).findAction a
      = some ⟨act.name ++ BAKING_SUFFIX, act.frame_range⟩ := by
    unfold World.findAction
    rw [hrem]
    unfold World.findAction at hfind
    exact lookupA_map_rename_self st.world.actions a _ act hfind
  have hrem_ad : (w2.removeAction st.world.next_id).anim_data
      = some ⟨none, ad.nla_strip_actions⟩ := by
    rw [removeAction_anim_data, had2]
    simp
  have hfinal_acts : ((w2.removeAction st.world.next_id).renameAction a
      (pyCutRight (⟨act.name ++ BAKING_SUFFIX, act.frame_range⟩ : BAction).name
        BAKING_SUFFIX.length)).actions = st.world.actions := by
    rw [renameAction_actions, hrem]
    have hcut : (⟨act.name ++ BAKING_SUFFIX, act.frame_range⟩ : BAction).name
        = act.name ++ BAKING_SUFFIX := rfl
    rw [hcut, pyCutRight_append, map_rename_compose]
    unfold World.findAction at hfind
    exact map_rename_id_of_name st.world.actions a act hnd hfind
  -- assemble the run
  refine ⟨⟨(w2.removeAction st.world.next_id).renameAction a
      (pyCutRight (⟨act.name ++ BAKING_SUFFIX, act.frame_range⟩ : BAction).name
        BAKING_SUFFIX.length),
    st.default_animation, st.resource_log ++ [(x.name, st.world.next_id)],
    st.nla_log ++ [a], st.exported_actions ++ [a]⟩, ?_, ?_, ?_, ?_, ?_, ?_, ?_, ?_⟩
  · simp only [export_nla_action, hfind, hab, create_animation_resource, hfindF,
      hfinda4, ite_true, if_true]
  · exact hfinal_acts
  · rw [renameAction_anim_data]
    exact hrem_ad
  · rw [renameAction_next_id, removeAction_next_id, hnid2]
    omega
  · rfl
  · exact ⟨(x.name, st.world.next_id), rfl⟩
  · rfl
  · rfl

/-- Output of `export_nla_action` without baking: only the logs change. -/
theorem export_nla_nobake_char (objn : PyStr) (hObj hPose : Bool) (a : Nat)
    (st : ExportState) (act : BAction)
    (hfind : st.world.findAction a = some act) :
    export_nla_action objn hObj hPose false a st
      = Except.ok { st with
          exported_actions := st.exported_actions ++ [a]
          nla_log := st.nla_log ++ [a]
          resource_log := st.resource_log ++ [(act.name, a)] } := by
  simp only [export_nla_action, create_animation_resource, hfind,
    Bool.false_eq_true, ite_false, if_false]

/-- Output of `export_active_action` without baking (reachable only with a
non-`None` active action): the world is untouched; the default animation
resource is created when the player has none. -/
theorem export_active_nobake_char (objn : PyStr) (hObj hPose : Bool) (a : Nat)
    (st : ExportState) (act : BAction)
    (hfind : st.world.findAction a = some act) :
    export_active_action objn hObj hPose false (some a) st
      = Except.ok (if st.default_animation = none then
          { st with default_animation := some act.name
                    resource_log := st.resource_log ++ [(act.name, a)] }
        else st) := by
  by_cases hdef : st.default_animation = none
  · simp only [export_active_action, add_default_animation_resource,
      create_animation_resource, hfind, hdef, Bool.false_eq_true, ite_false,
      ite_true, if_false, if_true]
  · simp only [export_active_action, add_default_animation_resource,
      create_animation_resource, hfind, if_neg hdef, Bool.false_eq_true,
      ite_false, if_false]

theorem fresh_map_rename (l : List (Nat × BAction)) (N i : Nat) (n : PyStr)
    (hf : ∀ p ∈ l, ¬ p.1 = N) :
    ∀ p ∈ l.map (fun p => if p.1 = i then (p.1, ⟨n, p.2.frame_range⟩) else p),
      ¬ p.1 = N := by
  intro p hp
  obtain ⟨p0, hp0, hp0e⟩ := List.mem_map.mp hp
  have h1 := hf p0 hp0
  by_cases hpa : p0.1 = i
  · rw [if_pos hpa] at hp0e
    rw [← hp0e]
    simpa using h1
  · rw [if_neg hpa] at hp0e
    rw [← hp0e]
    exact h1

/-- Output of `export_active_action` under `need_bake` with a non-`None`
active action: store restored exactly, active slot cleared by the unlinking
delete, strips untouched, the active action recorded as exported, and the
default animation resource created when the player had none. -/
theorem export_active_bake_some_char (objn : PyStr) (hObj hPose : Bool)
    (hflag : hObj = true ∨ hPose = true) (a : Nat) (st : ExportState)
    (act : BAction) (ad : AnimData)
    (hfind : st.world.findAction a = some act)
    (had : st.world.anim_data = some ad)
    (hfresh : ∀ p ∈ st.world.actions, p.1 < st.world.next_id)
    (hnd : (st.world.actions.map Prod.fst).Nodup) :
    ∃ st', export_active_action objn hObj hPose true (some a) st = Except.ok st'
      ∧ st'.world.actions = st.world.actions
      ∧ st'.world.anim_data = some ⟨none, ad.nla_strip_actions⟩
      ∧ st.world.next_id ≤ st'.world.next_id
      ∧ st'.exported_actions = st.exported_actions ++ [a]
      ∧ st'.nla_log = st.nla_log
      ∧ ((st.default_animation = none
          ∧ (∃ d, st'.default_animation = some d)
          ∧ (∃ re, st'.resource_log = st.resource_log ++ [re]))
        ∨ (st.default_animation ≠ none
          ∧ st'.default_animation = st.default_animation
          ∧ st'.resource_log = st.resource_log)) := by
  have hfresh' : ∀ p ∈ st.world.actions, ¬ p.1 = st.world.next_id := by
    intro p hp
    have := hfresh p hp
    omega
  have hw1acts := renameAction_actions st.world a (act.name ++ BAKING_SUFFIX)
  have hfresh1 : ∀ p ∈ (st.world.renameAction a (act.name ++ BAKING_SUFFIX)).actions,
      ¬ p.1 = (st.world.renameAction a (act.name ++ BAKING_SUFFIX)).next_id := by
    rw [hw1acts, renameAction_next_id]
    exact fresh_map_rename _ _ _ _ hfresh'
  have hfind1 : (st.world.renameAction a (act.name ++ BAKING_SUFFIX)).findAction a
      = some ⟨act.name ++ BAKING_SUFFIX, act.frame_range⟩ := by
    unfold World.findAction at hfind ⊢
    rw [renameAction_actions]
    exact lookupA_map_rename_self st.world.actions a _ act hfind
  obtain ⟨x, w2, hab, hacts2, hnid2, had2⟩ :=
    action_baker_char objn hObj hPose (some a)
      (st.world.renameAction a (act.name ++ BAKING_SUFFIX)) hflag hfresh1
      ⟨⟨_, hfind1⟩, ⟨ad, by rw [renameAction_anim_data]; exact had⟩⟩
  rw [renameAction_next_id] at hacts2 hnid2 had2 hab
  rw [renameAction_anim_data, had] at had2
  have hfindF : w2.findAction st.world.next_id = some x := by
    unfold World.findAction
    rw [hacts2, hw1acts]
    exact lookupA_append_fresh _ _ _ (fresh_map_rename _ _ _ _ hfresh')
  have hrem : (w2.removeAction st.world.next_id).actions
      = st.world.actions.map (fun p =>
          if p.1 = a then (p.1, ⟨act.name ++ BAKING_SUFFIX, p.2.frame_range⟩) else p) := by
    rw [removeAction_actions, hacts2, hw1acts]
    exact filter_append_fresh _ _ _ (fresh_map_rename _ _ _ _ hfresh')
  have hfinda4 : (w2.removeAction st.world.next_id).findAction a
      = some ⟨act.name ++ BAKING_SUFFIX, act.frame_range⟩ := by
    unfold World.findAction
    rw [hrem]
    unfold World.findAction at hfind
    exact lookupA_map_rename_self st.world.actions a _ act hfind
  have hrem_ad : (w2.removeAction st.world.next_id).anim_data
      = some ⟨none, ad.nla_strip_actions⟩ := by
    rw [removeAction_anim_data, had2]
    simp
  have hfinal_acts : ((w2.removeAction st.world.next_id).renameAction a
      (pyCutRight (⟨act.name ++ BAKING_SUFFIX, act.frame_range⟩ : BAction).name
        BAKING_SUFFIX.length)).actions = st.world.actions := by
    rw [renameAction_actions, hrem]
    have hcut : (⟨act.name ++ BAKING_SUFFIX, act.frame_range⟩ : BAction).name
        = act.name ++ BAKING_SUFFIX := rfl
    rw [hcut, pyCutRight_append, map_rename_compose]
    unfold World.findAction at hfind
    exact map_rename_id_of_name st.world.actions a act hnd hfind
  by_cases hdef : st.default_animation = none
  · refine ⟨⟨(w2.removeAction st.world.next_id).renameAction a
        (pyCutRight (⟨act.name ++ BAKING_SUFFIX, act.frame_range⟩ : BAction).name
          BAKING_SUFFIX.length),
      some x.name, st.resource_log ++ [(x.name, st.world.next_id)],
      st.nla_log, st.exported_actions ++ [a]⟩, ?_, hfinal_acts, ?_, ?_, rfl, rfl, ?_⟩
    · simp only [export_active_action, add_default_animation_resource,
        create_animation_resource, hfind, hab, hfindF, hfinda4, hdef, ite_true,
        if_true]
    · rw [renameAction_anim_data]
      exact hrem_ad
    · rw [renameAction_next_id, removeAction_next_id, hnid2]
      omega
    · exact Or.inl ⟨hdef, ⟨x.name, rfl⟩, ⟨(x.name, st.world.next_id), rfl⟩⟩
  · refine ⟨⟨(w2.removeAction st.world.next_id).renameAction a
        (pyCutRight (⟨act.name ++ BAKING_SUFFIX, act.frame_range⟩ : BAction).name
          BAKING_SUFFIX.length),
      st.default_animation, st.resource_log,
      st.nla_log, st.exported_actions ++ [a]⟩, ?_, hfinal_acts, ?_, ?_, rfl, rfl, ?_⟩
    · simp only [export_active_action, add_default_animation_resource,
        create_animation_resource, hfind, hab, hfindF, hfinda4, if_neg hdef,
        ite_true, if_true]
    · rw [renameAction_anim_data]
      exact hrem_ad
    · rw [renameAction_next_id, removeAction_next_id, hnid2]
      omega
    · exact Or.inr ⟨hdef, rfl, rfl⟩

/-- Output of `export_active_action` under `need_bake` with no active action
(the bake-only pass): the store is restored, `animation_data` exists
afterwards with a cleared active slot, and nothing is recorded as exported. -/
theorem export_active_bake_none_char (objn : PyStr) (hObj hPose : Bool)
    (hflag : hObj = true ∨ hPose = true) (st : ExportState)
    (hfresh : ∀ p ∈ st.world.actions, p.1 < st.world.next_id) :
    ∃ st', export_active_action objn hObj hPose true none st = Except.ok st'
      ∧ st'.world.actions = st.world.actions
      ∧ st'.world.anim_data = some ⟨none,
          match st.world.anim_data with
          | some ad => ad.nla_strip_actions
          | none => []⟩
      ∧ st.world.next_id ≤ st'.world.next_id
      ∧ st'.exported_actions = st.exported_actions
      ∧ st'.nla_log = st.nla_log
      ∧ ((st.default_animation = none
          ∧ (∃ d, st'.default_animation = some d)
          ∧ (∃ re, st'.resource_log = st.resource_log ++ [re]))
        ∨ (st.default_animation ≠ none
          ∧ st'.default_animation = st.default_animation
          ∧ st'.resource_log = st.resource_log)) := by
  have hfresh' : ∀ p ∈ st.world.actions, ¬ p.1 = st.world.next_id := by
    intro p hp
    have := hfresh p hp
    omega
  obtain ⟨x, w2, hab, hacts2, hnid2, had2⟩ :=
    action_baker_char objn hObj hPose none st.world hflag hfresh' trivial
  have hfindF : w2.findAction st.world.next_id = some x := by
    unfold World.findAction
    rw [hacts2]
    exact lookupA_append_fresh _ _ _ hfresh'
  have hrem : (w2.removeAction st.world.next_id).actions = st.world.actions := by
    rw [removeAction_actions, hacts2]
    exact filter_append_fresh _ _ _ hfresh'
  have hrem_ad : (w2.removeAction st.world.next_id).anim_data
      = some ⟨none, match st.world.anim_data with
          | some ad => ad.nla_strip_actions
          | none => []⟩ := by
    rw [removeAction_anim_data, had2]
    simp
  by_cases hdef : st.default_animation = none
  · refine ⟨⟨w2.removeAction st.world.next_id, some x.name,
      st.resource_log ++ [(x.name, st.world.next_id)],
      st.nla_log, st.exported_actions⟩, ?_, hrem, hrem_ad, ?_, rfl, rfl, ?_⟩
    · simp only [export_active_action, add_default_animation_resource,
        create_animation_resource, hab, hfindF, hdef, ite_true, if_true]
    · rw [removeAction_next_id, hnid2]
      omega
    · exact Or.inl ⟨hdef, ⟨x.name, rfl⟩, ⟨(x.name, st.world.next_id), rfl⟩⟩
  · refine ⟨⟨w2.removeAction st.world.next_id, st.default_animation,
      st.resource_log, st.nla_log, st.exported_actions⟩, ?_, hrem, hrem_ad,
      ?_, rfl, rfl, ?_⟩
    · simp only [export_active_action, add_default_animation_resource,
        create_animation_resource, hab, hfindF, if_neg hdef, ite_true, if_true]
    · rw [removeAction_next_id, hnid2]
      omega
    · exact Or.inr ⟨hdef, rfl, rfl⟩

theorem findAction_of_actions_eq (w w' : World)
    (h : w'.actions = w.actions) (i : Nat) :
    w'.findAction i = w.findAction i := by
  unfold World.findAction
  rw [h]

/-- The strip loop: never raises (under store well-formedness), restores the
action store exactly, keeps the strips, clears (or keeps) the active slot,
exports each not-yet-exported strip action exactly once — in particular no
action twice — and registers exactly one resource per export. -/
theorem export_nla_loop_char (objn : PyStr) (hObj hPose need_bake : Bool)
    (hflag : need_bake = true → hObj = true ∨ hPose = true)
    (sas : List (Option Nat)) :
    ∀ (st : ExportState) (x : Option Nat) (S0 : List (Option Nat)),
    (∀ sa ∈ sas, ∀ a : Nat, sa = some a → ∃ act, st.world.findAction a = some act) →
    st.world.anim_data = some ⟨x, S0⟩ →
    (∀ p ∈ st.world.actions, p.1 < st.world.next_id) →
    (st.world.actions.map Prod.fst).Nodup →
    ∃ (st' : ExportState) (y : Option Nat) (newLog : List Nat),
      export_nla_loop objn hObj hPose need_bake sas st = Except.ok st'
      ∧ st'.world.actions = st.world.actions
      ∧ st'.world.anim_data = some ⟨y, S0⟩
      ∧ st.world.next_id ≤ st'.world.next_id
      ∧ (x = none → y = none)
      ∧ (need_bake = false → y = x)
      ∧ st'.nla_log = st.nla_log ++ newLog
      ∧ st'.exported_actions = st.exported_actions ++ newLog
      ∧ newLog.Nodup
      ∧ (∀ b ∈ newLog, some b ∈ sas ∧ b ∉ st.exported_actions)
      ∧ (∀ b : Nat, some b ∈ sas → b ∈ st.exported_actions ∨ b ∈ newLog)
      ∧ st'.resource_log.length = st.resource_log.length + newLog.length
      ∧ st'.default_animation = st.default_animation := by
  induction sas with
  | nil =>
    intro st x S0 _ had _ _
    exact ⟨st, x, [], rfl, rfl, by simpa using had, le_refl _, fun h => h,
      fun _ => rfl, by simp, by simp, List.nodup_nil, by simp, by simp,
      by simp, rfl⟩
  | cons sa rest ih =>
    intro st x S0 hstrip had hfresh hnd
    have hstripRest : ∀ sa' ∈ rest, ∀ a : Nat, sa' = some a →
        ∃ act, st.world.findAction a = some act :=
      fun sa' h => hstrip sa' (List.mem_cons_of_mem sa h)
    cases sa with
    | none =>
      obtain ⟨st', y, newLog, hrun, hacts, hady, hnid, hxy, hnb, hnla, hexp,
        hndl, hmeml, hcov, hres, hdef⟩ := ih st x S0 hstripRest had hfresh hnd
      refine ⟨st', y, newLog, ?_, hacts, hady, hnid, hxy, hnb, hnla, hexp,
        hndl, ?_, ?_, hres, hdef⟩
      · simpa [export_nla_loop] using hrun
      · intro b hb
        obtain ⟨h1, h2⟩ := hmeml b hb
        exact ⟨List.mem_cons_of_mem _ h1, h2⟩
      · intro b hb
        rcases List.mem_cons.mp hb with h | h
        · exact absurd h (by simp)
        · exact hcov b h
    | some a =>
      by_cases hmem : a ∈ st.exported_actions
      · obtain ⟨st', y, newLog, hrun, hacts, hady, hnid, hxy, hnb, hnla, hexp,
          hndl, hmeml, hcov, hres, hdef⟩ := ih st x S0 hstripRest had hfresh hnd
        refine ⟨st', y, newLog, ?_, hacts, hady, hnid, hxy, hnb, hnla, hexp,
          hndl, ?_, ?_, hres, hdef⟩
        · simpa [export_nla_loop, hmem] using hrun
        · intro b hb
          obtain ⟨h1, h2⟩ := hmeml b hb
          exact ⟨List.mem_cons_of_mem _ h1, h2⟩
        · intro b hb
          rcases List.mem_cons.mp hb with h | h
          · have : b = a := by simpa using h
            subst this
            exact Or.inl hmem
          · exact hcov b h
      · cases need_bake with
        | true =>
          obtain ⟨act, hfa⟩ := hstrip (some a) (List.mem_cons_self _ _) a rfl
          obtain ⟨st1, hrun1, hacts1, had1, hnid1, hdef1, ⟨re, hres1⟩, hnla1,
            hexp1⟩ := export_nla_bake_char objn hObj hPose (hflag rfl) a st act
              ⟨x, S0⟩ hfa had hfresh hnd
          have hfresh1 : ∀ p ∈ st1.world.actions, p.1 < st1.world.next_id := by
            rw [hacts1]
            intro p hp
            have := hfresh p hp
            omega
          have hnd1 : (st1.world.actions.map Prod.fst).Nodup := by
            rw [hacts1]; exact hnd
          have hstrip1 : ∀ sa' ∈ rest, ∀ b : Nat, sa' = some b →
              ∃ act, st1.world.findAction b = some act := by
            intro sa' h b hb
            obtain ⟨act2, hact2⟩ := hstripRest sa' h b hb
            exact ⟨act2, by
              rw [findAction_of_actions_eq st.world st1.world hacts1]
              exact hact2⟩
          obtain ⟨st2, y, newLog2, hrun2, hacts2, hady2, hnid2, hxy2, _, hnla2,
            hexp2, hndl2, hmeml2, hcov2, hres2, hdef2⟩ :=
            ih st1 none S0 hstrip1 had1 hfresh1 hnd1
          refine ⟨st2, y, a :: newLog2, ?_, ?_, hady2, ?_, fun _ => hxy2 rfl,
            ?_, ?_, ?_, ?_, ?_, ?_, ?_, ?_⟩
          · simp only [export_nla_loop, if_neg hmem, hrun1]
            exact hrun2
          · rw [hacts2, hacts1]
          · exact le_trans hnid1 hnid2
          · intro h
            exact absurd h (by decide)
          · rw [hnla2, hnla1, List.append_assoc]
            rfl
          · rw [hexp2, hexp1, List.append_assoc]
            rfl
          · refine List.nodup_cons.mpr ⟨?_, hndl2⟩
            intro hmem2
            have := (hmeml2 a hmem2).2
            rw [hexp1] at this
            exact this (List.mem_append.mpr (Or.inr (List.mem_singleton.mpr rfl)))
          · intro b hb
            rcases List.mem_cons.mp hb with h | h
            · subst h
              exact ⟨List.mem_cons_self _ _, hmem⟩
            · obtain ⟨h1, h2⟩ := hmeml2 b h
              rw [hexp1] at h2
              refine ⟨List.mem_cons_of_mem _ h1, fun hc => h2 ?_⟩
              exact List.mem_append.mpr (Or.inl hc)
          · intro b hb
            rcases List.mem_cons.mp hb with h | h
            · have : b = a := by simpa using h
              subst this
              exact Or.inr (List.mem_cons_self _ _)
            · rcases hcov2 b h with h1 | h1
              · rw [hexp1] at h1
                rcases List.mem_append.mp h1 with h2 | h2
                · exact Or.inl h2
                · have : b = a := by simpa using h2
                  subst this
                  exact Or.inr (List.mem_cons_self _ _)
              · exact Or.inr (List.mem_cons_of_mem _ h1)
          · rw [hres2, hres1]
            simp [List.length_append]
            omega
          · rw [hdef2, hdef1]
        | false =>
          obtain ⟨act, hfa⟩ := hstrip (some a) (List.mem_cons_self _ _) a rfl
          have hrun1 := export_nla_nobake_char objn hObj hPose a st act hfa
          have hstrip1 : ∀ sa' ∈ rest, ∀ b : Nat, sa' = some b →
              ∃ act2, ({ st with
                  exported_actions := st.exported_actions ++ [a]
                  nla_log := st.nla_log ++ [a]
                  resource_log := st.resource_log ++ [(act.name, a)] }
                    : ExportState).world.findAction b = some act2 :=
            fun sa' h b hb => hstripRest sa' h b hb
          obtain ⟨st2, y, newLog2, hrun2, hacts2, hady2, hnid2, hxy2, hnb2,
            hnla2, hexp2, hndl2, hmeml2, hcov2, hres2, hdef2⟩ :=
            ih ({ st with
                exported_actions := st.exported_actions ++ [a]
                nla_log := st.nla_log ++ [a]
                resource_log := st.resource_log ++ [(act.name, a)] }
                  : ExportState) x S0 hstrip1 had hfresh hnd
          have hnla2x : st2.nla_log = (st.nla_log ++ [a]) ++ newLog2 := hnla2
          have hexp2x : st2.exported_actions
              = (st.exported_actions ++ [a]) ++ newLog2 := hexp2
          have hres2x : st2.resource_log.length
              = (st.resource_log ++ [(act.name, a)]).length + newLog2.length := hres2
          refine ⟨st2, y, a :: newLog2, ?_, hacts2, hady2, hnid2, hxy2, hnb2,
            ?_, ?_, ?_, ?_, ?_, ?_, hdef2⟩
          · simp only [export_nla_loop, if_neg hmem, hrun1]
            exact hrun2
          · rw [hnla2x, List.append_assoc]
            rfl
          · rw [hexp2x, List.append_assoc]
            rfl
          · refine List.nodup_cons.mpr ⟨?_, hndl2⟩
            intro hmem2
            have h2 : a ∉ st.exported_actions ++ [a] := (hmeml2 a hmem2).2
            exact h2 (List.mem_append.mpr (Or.inr (List.mem_singleton.mpr rfl)))
          · intro b hb
            rcases List.mem_cons.mp hb with h | h
            · subst h
              exact ⟨List.mem_cons_self _ _, hmem⟩
            · obtain ⟨h1, h2⟩ := hmeml2 b h
              have h2x : b ∉ st.exported_actions ++ [a] := h2
              refine ⟨List.mem_cons_of_mem _ h1, fun hc => h2x ?_⟩
              exact List.mem_append.mpr (Or.inl hc)
          · intro b hb
            rcases List.mem_cons.mp hb with h | h
            · have : b = a := by simpa using h
              subst this
              exact Or.inr (List.mem_cons_self _ _)
            · rcases hcov2 b h with h1 | h1
              · have h1x : b ∈ st.exported_actions ++ [a] := h1
                rcases List.mem_append.mp h1x with h2 | h2
                · exact Or.inl h2
                · have : b = a := by simpa using h2
                  subst this
                  exact Or.inr (List.mem_cons_self _ _)
              · exact Or.inr (List.mem_cons_of_mem _ h1)
          · rw [hres2x]
            simp [List.length_append]
            omega

/-- Master characterization of `export_animation_data` (export enabled):
under store well-formedness the call returns normally, restores the action
store exactly, restores the active-action reference, and the nla exports are
identity-deduplicated with one resource per export (plus at most one default
resource). -/
theorem export_animation_data_char (objn : PyStr) (hObj hPose : Bool)
    (action_type : String) (st : ExportState)
    (hfresh : ∀ p ∈ st.world.actions, p.1 < st.world.next_id)
    (hnd : (st.world.actions.map Prod.fst).Nodup)
    (hwfact : ∀ a : Nat, st.world.activeAction = some a →
      ∃ act, st.world.findAction a = some act)
    (hwfstrip : ∀ ad : AnimData, st.world.anim_data = some ad →
      ∀ sa ∈ ad.nla_strip_actions, ∀ a : Nat, sa = some a →
        ∃ act, st.world.findAction a = some act) :
    ∃ (st' : ExportState) (newLog : List Nat),
      export_animation_data true objn hObj hPose action_type st
        = Except.ok st'
      ∧ st'.world.actions = st.world.actions
      ∧ st'.world.activeAction = st.world.activeAction
      ∧ st'.nla_log = st.nla_log ++ newLog
      ∧ newLog.Nodup
      ∧ (∀ b ∈ newLog,
          some b ∈ (match st.world.anim_data with
            | some ad => ad.nla_strip_actions
            | none => ([] : List (Option Nat))))
      ∧ (∀ b : Nat,
          some b ∈ (match st.world.anim_data with
            | some ad => ad.nla_strip_actions
            | none => ([] : List (Option Nat))) →
          ((decide (action_type = "transform") && (hObj || hPose)) = true
            ∧ st.world.activeAction = some b) ∨ b ∈ newLog)
      ∧ (∃ d : Nat, (d = 0 ∨ d = 1)
          ∧ st'.resource_log.length
            = st.resource_log.length + newLog.length + d) := by
  have hstz : ({ st with exported_actions := [] } : ExportState).world
      = st.world := rfl
  by_cases hanim : st.world.anim_data = none
  · have hactive : st.world.activeAction = none := by
      unfold World.activeAction
      rw [hanim]
    cases hnb : (decide (action_type = "transform") && (hObj || hPose)) with
    | false =>
      refine ⟨st, [], ?_, rfl, rfl, by simp, List.nodup_nil, ?_, ?_,
        0, Or.inl rfl, by simp⟩
      · simp [export_animation_data, hanim, hnb]
      · intro b hb
        simp at hb
      · intro b hb
        rw [hanim] at hb
        simp at hb
    | true =>
      have hflag : hObj = true ∨ hPose = true := by
        have := (Bool.and_eq_true _ _).mp hnb
        exact (Bool.or_eq_true _ _).mp this.2
      obtain ⟨st1, hrun1, hacts1, had1, hnid1, hexp1, hnla1, hdefres1⟩ :=
        export_active_bake_none_char objn hObj hPose hflag
          { st with exported_actions := [] } hfresh
      simp only [hstz] at hrun1 hacts1 had1 hnid1
      simp only [hanim] at had1
      have hrun : export_animation_data true objn hObj hPose action_type st
          = Except.ok st1 := by
        simp only [export_animation_data, hnb, hanim, hactive, hrun1, had1,
          Option.isNone_none, Option.isSome_none, Bool.false_or,
          Bool.true_and, not_true, ite_true, if_true, ite_false, if_false,
          export_nla_loop]
        simp
      refine ⟨st1, [], hrun, hacts1, ?_, ?_, List.nodup_nil, ?_, ?_, ?_⟩
      · unfold World.activeAction
        rw [had1, hanim]
      · rw [hnla1]
        simp
      · intro b hb
        simp at hb
      · intro b hb
        rw [hanim] at hb
        simp at hb
      · rcases hdefres1 with ⟨-, -, re, hres⟩ | ⟨-, -, hres⟩
        · exact ⟨1, Or.inr rfl, by rw [hres]; simp⟩
        · exact ⟨0, Or.inl rfl, by rw [hres]; simp⟩
  · obtain ⟨ad, hads⟩ : ∃ ad, st.world.anim_data = some ad := by
      cases h : st.world.anim_data with
      | none => exact absurd h hanim
      | some ad => exact ⟨ad, rfl⟩
    obtain ⟨xa, S0⟩ := ad
    have hactive : st.world.activeAction = xa := by
      unfold World.activeAction
      rw [hads]
    have hflag : (decide (action_type = "transform") && (hObj || hPose)) = true →
        hObj = true ∨ hPose = true := by
      intro h
      have := (Bool.and_eq_true _ _).mp h
      exact (Bool.or_eq_true _ _).mp this.2
    have hstrips0 : ∀ sa ∈ S0, ∀ a : Nat, sa = some a →
        ∃ act, st.world.findAction a = some act := by
      intro sa h a ha
      exact hwfstrip ⟨xa, S0⟩ hads sa h a ha
    cases xa with
    | some a =>
      obtain ⟨act, hfa⟩ := hwfact a hactive
      cases hnb : (decide (action_type = "transform") && (hObj || hPose)) with
      | true =>
        obtain ⟨st1, hrun1, hacts1, had1, hnid1, hexp1, hnla1, hdefres1⟩ :=
          export_active_bake_some_char objn hObj hPose (hflag hnb) a
            { st with exported_actions := [] } act ⟨some a, S0⟩ hfa hads
            hfresh hnd
        simp only [hstz] at hrun1 hacts1 had1 hnid1
        have hfresh1 : ∀ p ∈ st1.world.actions, p.1 < st1.world.next_id := by
          rw [hacts1]
          intro p hp
          have := hfresh p hp
          omega
        have hnd1 : (st1.world.actions.map Prod.fst).Nodup := by
          rw [hacts1]; exact hnd
        have hstrip1 : ∀ sa ∈ S0, ∀ b : Nat, sa = some b →
            ∃ act2, st1.world.findAction b = some act2 := by
          intro sa h b hb
          obtain ⟨act2, h2⟩ := hstrips0 sa h b hb
          exact ⟨act2, by
            rw [findAction_of_actions_eq st.world st1.world hacts1]
            exact h2⟩
        obtain ⟨st2, y, newLog, hrun2, hacts2, hady2, hnid2, hxy2, _, hnla2,
          hexp2, hndl2, hmeml2, hcov2, hres2, hdef2⟩ :=
          export_nla_loop_char objn hObj hPose true (fun _ => hflag hnb) S0
            st1 none S0 hstrip1 had1 hfresh1 hnd1
        have hy : y = none := hxy2 rfl
        subst hy
        have hrun : export_animation_data true objn hObj hPose action_type st
            = Except.ok { st2 with world :=
                { st2.world with anim_data := some ⟨some a, S0⟩ } } := by
          simp only [export_animation_data, hnb, hads, hactive, hrun1, had1,
            hrun2, hady2, Option.isSome_some, Bool.true_or, not_true,
            ite_true, if_true, ite_false, if_false]
          simp [hads]
        refine ⟨_, newLog, hrun, ?_, ?_, ?_, hndl2, ?_, ?_, ?_⟩
        · simp only []
          show st2.world.actions = st.world.actions
          rw [hacts2, hacts1]
        · simp [World.activeAction, hads]
        · show st2.nla_log = st.nla_log ++ newLog
          simp [hnla2, hnla1]
        · intro b hb
          simp only [hads]
          exact (hmeml2 b hb).1
        · intro b hb
          simp only [hads] at hb
          rcases hcov2 b hb with h1 | h1
          · rw [hexp1] at h1
            simp at h1
            subst h1
            exact Or.inl ⟨rfl, hactive⟩
          · exact Or.inr h1
        · rcases hdefres1 with ⟨-, -, re, hresd⟩ | ⟨-, -, hresd⟩
          · refine ⟨1, Or.inr rfl, ?_⟩
            show st2.resource_log.length = _
            simp [hres2, hresd]
            omega
          · refine ⟨0, Or.inl rfl, ?_⟩
            show st2.resource_log.length = _
            simp [hres2, hresd]
      | false =>
        have hrun1 := export_active_nobake_char objn hObj hPose a
          { st with exported_actions := [] } act hfa
        by_cases hdef : st.default_animation = none
        · rw [if_pos hdef] at hrun1
          have had1 : ({ st with
              exported_actions := [],
              default_animation := some act.name,
              resource_log := st.resource_log ++ [(act.name, a)] }
                : ExportState).world.anim_data = some ⟨some a, S0⟩ := hads
          obtain ⟨st2, y, newLog, hrun2, hacts2, hady2, hnid2, hxy2, hnb2,
            hnla2, hexp2, hndl2, hmeml2, hcov2, hres2, hdef2⟩ :=
            export_nla_loop_char objn hObj hPose false
              (fun h => absurd h (by decide)) S0
              ({ st with
                  exported_actions := [],
                  default_animation := some act.name,
                  resource_log := st.resource_log ++ [(act.name, a)] }
                : ExportState) (some a) S0
              (fun sa h b hb => hstrips0 sa h b hb) had1 hfresh hnd
          have hrun : export_animation_data true objn hObj hPose action_type st
              = Except.ok { st2 with world :=
                  { st2.world with anim_data := some ⟨some a, S0⟩ } } := by
            simp only [export_animation_data, hnb, hads, hactive, hrun1, had1,
              hrun2, hady2, Option.isSome_some, Bool.true_or, not_true,
              ite_true, if_true, ite_false, if_false, if_pos hdef]
            simp [hads, hady2]
          refine ⟨_, newLog, hrun, ?_, ?_, ?_, hndl2, ?_, ?_, ?_⟩
          · simp only []
            show st2.world.actions = st.world.actions
            rw [hacts2]
          · simp [World.activeAction, hads]
          · show st2.nla_log = st.nla_log ++ newLog
            simpa using hnla2
          · intro b hb
            simp only [hads]
            exact (hmeml2 b hb).1
          · intro b hb
            simp only [hads] at hb
            rcases hcov2 b hb with h1 | h1
            · simp at h1
            · exact Or.inr h1
          · refine ⟨1, Or.inr rfl, ?_⟩
            show st2.resource_log.length = _
            simp [hres2]
            omega
        · rw [if_neg hdef] at hrun1
          obtain ⟨st2, y, newLog, hrun2, hacts2, hady2, hnid2, hxy2, hnb2,
            hnla2, hexp2, hndl2, hmeml2, hcov2, hres2, hdef2⟩ :=
            export_nla_loop_char objn hObj hPose false
              (fun h => absurd h (by decide)) S0
              ({ st with exported_actions := [] } : ExportState) (some a) S0
              (fun sa h b hb => hstrips0 sa h b hb) hads hfresh hnd
          have hrun : export_animation_data true objn hObj hPose action_type st
              = Except.ok { st2 with world :=
                  { st2.world with anim_data := some ⟨some a, S0⟩ } } := by
            simp only [export_animation_data, hnb, hads, hactive, hrun1,
              hrun2, hady2, Option.isSome_some, Bool.true_or, not_true,
              ite_true, if_true, ite_false, if_false]
            simp [hads, hady2]
          refine ⟨_, newLog, hrun, ?_, ?_, ?_, hndl2, ?_, ?_, ?_⟩
          · simp only []
            show st2.world.actions = st.world.actions
            rw [hacts2]
          · simp [World.activeAction, hads]
          · show st2.nla_log = st.nla_log ++ newLog
            simpa using hnla2
          · intro b hb
            simp only [hads]
            exact (hmeml2 b hb).1
          · intro b hb
            simp only [hads] at hb
            rcases hcov2 b hb with h1 | h1
            · simp at h1
            · exact Or.inr h1
          · refine ⟨0, Or.inl rfl, ?_⟩
            show st2.resource_log.length = _
            simp [hres2]
    | none =>
      obtain ⟨st2, y, newLog, hrun2, hacts2, hady2, hnid2, hxy2, hnb2,
        hnla2, hexp2, hndl2, hmeml2, hcov2, hres2, hdef2⟩ :=
        export_nla_loop_char objn hObj hPose
          (decide (action_type = "transform") && (hObj || hPose)) hflag S0
          ({ st with exported_actions := [] } : ExportState) none S0
          (fun sa h b hb => hstrips0 sa h b hb) hads hfresh hnd
      have hy : y = none := hxy2 rfl
      subst hy
      have hrun : export_animation_data true objn hObj hPose action_type st
          = Except.ok st2 := by
        simp only [export_animation_data, hads, hactive, hrun2, hady2,
          Option.isSome_none, Option.isNone_some, Bool.false_or,
          Bool.false_and, not_true, ite_true, if_true, ite_false, if_false]
        simp [hads]
        rw [hrun2]
      refine ⟨st2, newLog, hrun, ?_, ?_, ?_, hndl2, ?_, ?_, ?_⟩
      · rw [hacts2]
      · unfold World.activeAction
        rw [hady2, hads]
      · simpa using hnla2
      · intro b hb
        simp only [hads]
        exact (hmeml2 b hb).1
      · intro b hb
        simp only [hads] at hb
        rcases hcov2 b hb with h1 | h1
        · simp at h1
        · exact Or.inr h1
      · refine ⟨0, Or.inl rfl, ?_⟩
        simp [hres2]

/-- Claim C2: whenever `export_animation_data` returns normally, the entity's
active-action reference afterwards equals its value before the call —
including when the pre-call value was `none` and baking temporarily
activated other actions — and, provided no action name carried the
temporary baking suffix `--being-baking` before the call, no action name
carries it when the call returns (indeed the whole action store is restored
byte-for-byte). -/
theorem c2_active_action_restored_and_no_baking_suffix
    (useexp : Bool) (objn : PyStr) (hObj hPose : Bool)
    (action_type : String) (st : ExportState)
    (hfresh : ∀ p ∈ st.world.actions, p.1 < st.world.next_id)
    (hnd : (st.world.actions.map Prod.fst).Nodup)
    (hwfact : ∀ a : Nat, st.world.activeAction = some a →
      ∃ act, st.world.findAction a = some act)
    (hwfstrip : ∀ ad : AnimData, st.world.anim_data = some ad →
      ∀ sa ∈ ad.nla_strip_actions, ∀ a : Nat, sa = some a →
        ∃ act, st.world.findAction a = some act)
    (hsfx : ∀ p ∈ st.world.actions, ¬ BAKING_SUFFIX <:+ p.2.name) :
    ∃ st' : ExportState,
      export_animation_data useexp objn hObj hPose action_type st
        = Except.ok st'
      ∧ st'.world.activeAction = st.world.activeAction
      ∧ ∀ p ∈ st'.world.actions, ¬ BAKING_SUFFIX <:+ p.2.name := by
  cases useexp with
  | false =>
    exact ⟨st, by simp [export_animation_data], rfl, hsfx⟩
  | true =>
    obtain ⟨st', newLog, hrun, hacts, hact, _⟩ :=
      export_animation_data_char objn hObj hPose action_type st
        hfresh hnd hwfact hwfstrip
    refine ⟨st', hrun, hact, ?_⟩
    rw [hacts]
    exact hsfx

/-- Witness for C2 at a concrete state: exporting `c2State0` (active action
`Walk`, two NLA strips, transform constraints) restores the active action
and leaves every action name free of the baking suffix. -/
theorem c2_active_action_restored_witness :
    ∃ st' : ExportState,
      export_animation_data true "Obj".toList true false "transform" c2State0
        = Except.ok st'
      ∧ st'.world.activeAction = c2State0.world.activeAction
      ∧ ∀ p ∈ st'.world.actions, ¬ BAKING_SUFFIX <:+ p.2.name :=
  c2_active_action_restored_and_no_baking_suffix true "Obj".toList true false
    "transform" c2State0
    (by decide)
    (by decide)
    (by
      intro a ha
      have h0 : a = 0 := by
        have : (some 0 : Option Nat) = some a := ha
        exact (Option.some.inj this).symm
      subst h0
      exact ⟨⟨"Walk".toList, (1, 10)⟩, rfl⟩)
    (by
      intro ad had sa hsa a ha
      have had0 : (⟨some 0, [some 0, some 0]⟩ : AnimData) = ad :=
        Option.some.inj had
      subst had0
      have h0 : a = 0 := by
        simp at hsa
        rw [hsa] at ha
        exact (Option.some.inj ha).symm
      subst h0
      exact ⟨⟨"Walk".toList, (1, 10)⟩, rfl⟩)
    (by decide)

/-- Python truncation toward zero at a negative non-integral input:
`int(-2.5) = -2` (floor division would give `-3`). -/
theorem pyInt_truncates_toward_zero :
    pyInt (-5/2) = -2 ∧ pyInt (5/2) = 2 ∧ pyInt (-1/24) = 0 := by
  refine ⟨?_, ?_, ?_⟩ <;> norm_num [pyInt]

/-- Counterexample to claim C4 as frozen: in `c2State0` the NLA timeline
holds two strips both referencing action 0 (`Walk`), and action 0 is also
the active action. A non-baking export then creates TWO animation resources
attributed to action 0 — the default animation resource made by the
active-action pass and the per-strip resource made by the first strip —
not exactly one. -/
theorem c4_counterexample :
    c2State0.world.anim_data
        = some ⟨some 0, [some 0, some 0]⟩
    ∧ ∃ st' : ExportState,
        export_animation_data true "Obj".toList false false "value" c2State0
          = Except.ok st'
        ∧ st'.resource_log.map Prod.snd = [0, 0] :=
  ⟨rfl, _, rfl, rfl⟩

/-- Full characterization of the strip loop without baking: the world and
the default-animation slot are untouched; the newly exported strip actions
(`newLog`) are recorded, pairwise distinct, drawn from the strips, not
previously exported, and cover every strip action not already exported; and
the loop appends exactly one animation resource per element of `newLog`,
attributed (by its second component) to that action id. -/
theorem export_nla_loop_nobake_char (objn : PyStr) (hObj hPose : Bool)
    (S : List (Option Nat)) :
    ∀ st : ExportState,
    (∀ sa ∈ S, ∀ b : Nat, sa = some b →
      ∃ act, st.world.findAction b = some act) →
    ∃ (st2 : ExportState) (newLog : List Nat),
      export_nla_loop objn hObj hPose false S st = Except.ok st2
      ∧ st2.world = st.world
      ∧ st2.default_animation = st.default_animation
      ∧ st2.nla_log = st.nla_log ++ newLog
      ∧ st2.exported_actions = st.exported_actions ++ newLog
      ∧ newLog.Nodup
      ∧ (∀ b ∈ newLog, some b ∈ S ∧ b ∉ st.exported_actions)
      ∧ (∀ b : Nat, some b ∈ S → b ∈ st.exported_actions ∨ b ∈ newLog)
      ∧ st2.resource_log.map Prod.snd
          = st.resource_log.map Prod.snd ++ newLog := by
  induction S with
  | nil =>
    intro st _
    exact ⟨st, [], rfl, rfl, rfl, by simp, by simp, List.nodup_nil,
      by simp, by simp, by simp⟩
  | cons sa rest ih =>
    intro st hwf
    have hwfr : ∀ sa2 ∈ rest, ∀ b : Nat, sa2 = some b →
        ∃ act, st.world.findAction b = some act :=
      fun sa2 h b hb => hwf sa2 (List.mem_cons_of_mem _ h) b hb
    cases sa with
    | none =>
      obtain ⟨st2, newLog, hrun, hw, hd, hn, he, hnd, hm, hc, hr⟩ := ih st hwfr
      refine ⟨st2, newLog, ?_, hw, hd, hn, he, hnd, ?_, ?_, hr⟩
      · simpa [export_nla_loop] using hrun
      · exact fun b hb =>
          ⟨List.mem_cons_of_mem _ (hm b hb).1, (hm b hb).2⟩
      · intro b hb
        rcases List.mem_cons.mp hb with h | h
        · exact absurd h (by simp)
        · exact hc b h
    | some a =>
      by_cases hmem : a ∈ st.exported_actions
      · obtain ⟨st2, newLog, hrun, hw, hd, hn, he, hnd, hm, hc, hr⟩ :=
          ih st hwfr
        refine ⟨st2, newLog, ?_, hw, hd, hn, he, hnd, ?_, ?_, hr⟩
        · simpa [export_nla_loop, hmem] using hrun
        · exact fun b hb =>
            ⟨List.mem_cons_of_mem _ (hm b hb).1, (hm b hb).2⟩
        · intro b hb
          rcases List.mem_cons.mp hb with h | h
          · exact Or.inl ((Option.some.inj h) ▸ hmem)
          · exact hc b h
      · obtain ⟨act, hfa⟩ := hwf (some a) (List.mem_cons_self _ _) a rfl
        have hstep := export_nla_nobake_char objn hObj hPose a st act hfa
        have hwfr1 : ∀ sa2 ∈ rest, ∀ b : Nat, sa2 = some b →
            ∃ act2, ({ st with
                exported_actions := st.exported_actions ++ [a]
                nla_log := st.nla_log ++ [a]
                resource_log := st.resource_log ++ [(act.name, a)] }
              : ExportState).world.findAction b = some act2 := hwfr
        obtain ⟨st2, newLog, hrun, hw, hd, hn, he, hnd, hm, hc, hr⟩ :=
          ih _ hwfr1
        have hruncons : export_nla_loop objn hObj hPose false (some a :: rest) st
            = Except.ok st2 := by
          simp only [export_nla_loop, hmem, ite_false, if_false, hstep]
          simpa using hrun
        have hanot : a ∉ newLog := by
          intro hin
          have h2 := (hm a hin).2
          simp at h2
        refine ⟨st2, a :: newLog, hruncons, hw, hd, ?_, ?_,
          List.nodup_cons.mpr ⟨hanot, hnd⟩, ?_, ?_, ?_⟩
        · rw [hn]
          simp
        · rw [he]
          simp
        · intro b hb
          rcases List.mem_cons.mp hb with h | h
          · subst h
            exact ⟨List.mem_cons_self _ _, hmem⟩
          · refine ⟨List.mem_cons_of_mem _ (hm b h).1, ?_⟩
            have h2 := (hm b h).2
            simp at h2
            exact h2.1
        · intro b hb
          rcases List.mem_cons.mp hb with h | h
          · have hba := Option.some.inj h
            subst hba
            exact Or.inr (List.mem_cons_self _ _)
          · rcases hc b h with h2 | h2
            · simp at h2
              rcases h2 with h3 | h3
              · exact Or.inl h3
              · exact Or.inr (h3 ▸ List.mem_cons_self _ _)
            · exact Or.inr (List.mem_cons_of_mem _ h2)
        · rw [hr]
          simp

/-- Claim C4 (amended): without constraint baking, the strip loop of
`export_animation_data` deduplicates by identity through the
exported-actions set — the first strip referencing an action exports it
(creating exactly one animation resource attributed to that action) and
records it, and every later strip referencing the identical action is
skipped, so the strips contribute exactly one resource per distinct action
(`newLog` is duplicate-free, covers every strip action, and the resource
registry grows by precisely one entry per element, attributed to it).
However the deduplication does not span the active-action pass: when an
active action is present and the player has no default animation yet, that
pass creates an additional default resource attributed to the same action
id, so an action that is both active and referenced by a strip receives
two resources in total. -/
theorem c4_strip_dedup_and_active_duplication
    (objn : PyStr) (hObj hPose : Bool) (action_type : String)
    (st : ExportState) (xa : Option Nat) (S0 : List (Option Nat))
    (hads : st.world.anim_data = some ⟨xa, S0⟩)
    (hnb : (decide (action_type = "transform") && (hObj || hPose)) = false)
    (hwfact : ∀ a : Nat, xa = some a →
      ∃ act, st.world.findAction a = some act)
    (hwfstrip : ∀ sa ∈ S0, ∀ b : Nat, sa = some b →
      ∃ act, st.world.findAction b = some act) :
    ∃ (st' : ExportState) (newLog : List Nat),
      export_animation_data true objn hObj hPose action_type st
        = Except.ok st'
      ∧ newLog.Nodup
      ∧ (∀ b ∈ newLog, some b ∈ S0)
      ∧ (∀ b : Nat, some b ∈ S0 → b ∈ newLog)
      ∧ st'.exported_actions = newLog
      ∧ st'.resource_log.map Prod.snd
          = st.resource_log.map Prod.snd
            ++ (match xa, st.default_animation with
                | some a, none => [a]
                | _, _ => []) ++ newLog := by
  have hactive : st.world.activeAction = xa := by
    unfold World.activeAction
    rw [hads]
  cases xa with
  | some a =>
    obtain ⟨act, hfa⟩ := hwfact a rfl
    have hrun1 := export_active_nobake_char objn hObj hPose a
      ({ st with exported_actions := [] } : ExportState) act hfa
    by_cases hdef : st.default_animation = none
    · rw [if_pos hdef] at hrun1
      obtain ⟨st2, newLog, hrun2, hw2, hd2, hn2, he2, hnd2, hm2, hc2, hr2⟩ :=
        export_nla_loop_nobake_char objn hObj hPose S0
          ({ st with
              exported_actions := [],
              default_animation := some act.name,
              resource_log := st.resource_log ++ [(act.name, a)] }
            : ExportState) hwfstrip
      have hady2 : st2.world.anim_data = some ⟨some a, S0⟩ := by
        rw [hw2]
        exact hads
      have hrun : export_animation_data true objn hObj hPose action_type st
          = Except.ok { st2 with world :=
              { st2.world with anim_data := some ⟨some a, S0⟩ } } := by
        simp only [export_animation_data, hnb, hads, hactive, hrun1,
          hrun2, hady2, Option.isSome_some, Bool.true_or, not_true,
          ite_true, if_true, ite_false, if_false, if_pos hdef]
        simp [hads, hady2]
      refine ⟨_, newLog, hrun, hnd2, ?_, ?_, ?_, ?_⟩
      · exact fun b hb => (hm2 b hb).1
      · intro b hb
        rcases hc2 b hb with h | h
        · simp at h
        · exact h
      · show st2.exported_actions = newLog
        rw [he2]
        simp
      · show st2.resource_log.map Prod.snd = _
        rw [hr2]
        simp [hdef]
    · rw [if_neg hdef] at hrun1
      obtain ⟨st2, newLog, hrun2, hw2, hd2, hn2, he2, hnd2, hm2, hc2, hr2⟩ :=
        export_nla_loop_nobake_char objn hObj hPose S0
          ({ st with exported_actions := [] } : ExportState) hwfstrip
      have hady2 : st2.world.anim_data = some ⟨some a, S0⟩ := by
        rw [hw2]
        exact hads
      have hrun : export_animation_data true objn hObj hPose action_type st
          = Except.ok { st2 with world :=
              { st2.world with anim_data := some ⟨some a, S0⟩ } } := by
        simp only [export_animation_data, hnb, hads, hactive, hrun1,
          hrun2, hady2, Option.isSome_some, Bool.true_or, not_true,
          ite_true, if_true, ite_false, if_false]
        simp [hads, hady2]
      refine ⟨_, newLog, hrun, hnd2, ?_, ?_, ?_, ?_⟩
      · exact fun b hb => (hm2 b hb).1
      · intro b hb
        rcases hc2 b hb with h | h
        · simp at h
        · exact h
      · show st2.exported_actions = newLog
        rw [he2]
        simp
      · show st2.resource_log.map Prod.snd = _
        rw [hr2]
        cases h : st.default_animation with
        | none => exact absurd h hdef
        | some d => simp [h]
  | none =>
    obtain ⟨st2, newLog, hrun2, hw2, hd2, hn2, he2, hnd2, hm2, hc2, hr2⟩ :=
      export_nla_loop_nobake_char objn hObj hPose S0
        ({ st with exported_actions := [] } : ExportState) hwfstrip
    have hrun : export_animation_data true objn hObj hPose action_type st
        = Except.ok st2 := by
      simp only [export_animation_data, hnb, hads, hactive,
        Option.isSome_none, Option.isNone_some, Bool.false_or,
        Bool.false_and, not_true, ite_true, if_true, ite_false, if_false]
      simp [hads]
      rw [hrun2]
    refine ⟨st2, newLog, hrun, hnd2, ?_, ?_, ?_, ?_⟩
    · exact fun b hb => (hm2 b hb).1
    · intro b hb
      rcases hc2 b hb with h | h
      · simp at h
      · exact h
    · rw [he2]
      simp
    · rw [hr2]
      simp

/-- Witness for the amended C4 at a concrete state: in `c2State0` both NLA
strips reference action 0, which is also the active action and the player
has no default animation, so the export log holds action 0 exactly once and
the resource registry gains the default resource plus exactly one per-strip
resource, both attributed to action 0. -/
theorem c4_strip_dedup_and_active_duplication_witness :
    ∃ (st' : ExportState) (newLog : List Nat),
      export_animation_data true "Obj".toList false false "value" c2State0
        = Except.ok st'
      ∧ newLog.Nodup
      ∧ (∀ b ∈ newLog, some b ∈ [some (0 : Nat), some 0])
      ∧ (∀ b : Nat, some b ∈ [some (0 : Nat), some 0] → b ∈ newLog)
      ∧ st'.exported_actions = newLog
      ∧ st'.resource_log.map Prod.snd
          = c2State0.resource_log.map Prod.snd ++ [0] ++ newLog :=
  c4_strip_dedup_and_active_duplication "Obj".toList false false "value"
    c2State0 (some 0) [some 0, some 0]
    rfl
    (by decide)
    (by
      intro a ha
      have h0 : a = 0 := (Option.some.inj ha).symm
      subst h0
      exact ⟨⟨"Walk".toList, (1, 10)⟩, rfl⟩)
    (by
      intro sa hsa b hb
      have h0 : b = 0 := by
        simp at hsa
        rw [hsa] at hb
        exact (Option.some.inj hb).symm
      subst h0
      exact ⟨⟨"Walk".toList, (1, 10)⟩, rfl⟩)
